import Mathlib

/-!
# Property lists of `poc-properties.cpp`

A shallow embedding of the compile-time property library of
`src/poc-properties.cpp` (namespaces `sycl::khr` and `sycl::khr::detail`).

* C++ class types are nominal, so a type is a `TypeId` and a translation unit
  is a `Program`: the class table (`decl`) together with the explicit
  specializations of the two open traits.
* A template metafunction over a pack becomes a function over `List TypeId`.
* A construct that does not compile (an unsatisfied `requires`, a missing
  member alias, `std::get` by a type that is not stored exactly once) is
  `none`.
* Objects are a type and the values of the non-static data members; copy and
  move constructors are the functions of the class declaration.
-/

namespace sycl

/-! ## Types and class declarations -/

/-- Identity of a C++ type of the translation unit: the classes and class
templates of the source by name, and `user id` for any other class. -/
inductive TypeId where
  | void
  | bool
  | int
  | float
  | size_t
  | queue
  | annotated_ptr_properties
  /-- The five category markers of `detail`, lines 31-35. -/
  | runtime_property_base
  | constant_property_base
  | constant_property_key_base
  | hybrid_property_base
  | hybrid_property_key_base
  /-- Instantiation `detail::runtime_property<Property>`, line 38. -/
  | runtime_property (Property : TypeId)
  | constant_value_property_key
  | constant_type_property_key
  /-- Instantiation
  `constant_value_property_key::__detail_property_t<PropertyKey, Type, Value>`. -/
  | constant_value_property (PropertyKey T : TypeId) (Value : Int)
  /-- Instantiation
  `constant_type_property_key::__detail_property_t<PropertyKey, Type>`. -/
  | constant_type_property (PropertyKey T : TypeId)
  | enable_profiling
  | twoarg
  | alignment_key
  | alignment_type_key
  | threearg_key
  /-- Instantiation `threearg_key::__detail_property_t<X, Y, Z>`. -/
  | threearg (X : Int) (Y : Bool) (Z : Int)
  | hybrid_key
  | hybrid (X : Int)
  /-- The local struct of `main`, line 628. -/
  | copy_check
  | user (id : Nat)
deriving DecidableEq, Repr

/-- Type of the variable template `alignment<Alignment>`, line 368. -/
def alignment (Alignment : Nat) : TypeId :=
  .constant_value_property .alignment_key .size_t Alignment

/-- Type of the variable template `alignment_type<T>`, line 375. -/
def alignment_type (T : TypeId) : TypeId :=
  .constant_type_property .alignment_type_key T

/-- Value of a data member or of a `static constexpr` member; `type` stands
for a member type alias such as `value_t`. -/
inductive Member where
  | int (v : Int)
  | bool (b : Bool)
  | type (T : TypeId)
deriving DecidableEq, Repr

/-- Values of the non-static data members of an object, by member name. -/
abbrev Data := List (String × Member)

/-- What the library can observe of a class type. The first five fields are
`std::is_base_of_v<detail::X, T>` for the five markers; the defaults describe
an empty class that plays no role in the library. -/
structure ClassDecl where
  runtime_property_base : Bool := false
  constant_property_base : Bool := false
  constant_property_key_base : Bool := false
  hybrid_property_base : Bool := false
  hybrid_property_key_base : Bool := false
  /-- The member alias `__detail_key_t`, when the class declares one. -/
  __detail_key_t : Option TypeId := none
  /-- The `static constexpr` members and member type aliases. -/
  static_members : Data := []
  /-- Data members after `T{}`; `none` when `T{}` does not compile. -/
  default_ctor : Option Data := none
  copy_ctor : Data → Data := id
  move_ctor : Data → Data := id
  sizeof : Nat := 1
  alignof : Nat := 1
  /-- What the copy constructor leaves in the object it copies from. It is
  the identity when the constructor only reads its source, as the implicit
  copy constructors and that of `copy_check` do; a constructor that writes
  to a `mutable` member of its source, or takes it as `T&`, changes it. -/
  copy_ctor_source : Data → Data := id
  /-- The trait `std::is_empty_v<T>`: the class has no non-static data
  member. -/
  is_empty : Bool := true

/-- A translation unit: the class table and the explicit specializations of
`is_property_key_for` and `is_property_for` (`none`: no explicit
specialization for that pair). -/
structure Program where
  decl : TypeId → ClassDecl
  is_property_key_for_spec : TypeId → TypeId → Option Bool
  is_property_for_spec : TypeId → TypeId → Option Bool

/-- An instance of a class type. -/
structure Object where
  type : TypeId
  data : Data
deriving DecidableEq, Repr

/-! ## Category traits and pack algorithms (`detail`, lines 67-164) -/

/-- The alias `typename Property::__detail_key_t`. -/
def key_of (Γ : Program) (Property : TypeId) : Option TypeId :=
  (Γ.decl Property).__detail_key_t

/-- Source `detail::find_property<PropertyKey, Properties...>::type`, lines
69-80. `std::conditional_t` instantiates both branches, so the alias of every
pack element is needed; `void` is the result of the primary template. -/
def find_property (Γ : Program) (PropertyKey : TypeId) : List TypeId → Option TypeId
  | [] => some .void
  | Property :: Rest =>
    match key_of Γ Property, find_property Γ PropertyKey Rest with
    | some k, some r => some (if PropertyKey = k then Property else r)
    | _, _ => none

/-- Source `detail::is_property_compile_time_v<Property>`, lines 85-92. -/
def is_property_compile_time_v (Γ : Program) (Property : TypeId) : Bool :=
  (Γ.decl Property).constant_property_base

/-- Source `detail::tuple_concat_t<T, std::tuple<Args...>>`, lines 98-104. -/
def tuple_concat_t (T : TypeId) (Args : List TypeId) : List TypeId :=
  T :: Args

/-- Source `detail::filter_runtime_properties_t<Properties...>`, lines
109-123; a `std::tuple<...>` type is the list of its element types. -/
def filter_runtime_properties_t (Γ : Program) : List TypeId → List TypeId
  | [] => []
  | Property :: Rest =>
    if !is_property_compile_time_v Γ Property then
      tuple_concat_t Property (filter_runtime_properties_t Γ Rest)
    else
      filter_runtime_properties_t Γ Rest

/-- Source `is_property_v<T>`, lines 129-138. -/
def is_property_v (Γ : Program) (T : TypeId) : Bool :=
  (Γ.decl T).runtime_property_base ||
  (Γ.decl T).constant_property_base ||
  (Γ.decl T).hybrid_property_base

/-- Source `is_property_key_v<T>`, lines 142-151. -/
def is_property_key_v (Γ : Program) (T : TypeId) : Bool :=
  (Γ.decl T).runtime_property_base ||
  (Γ.decl T).constant_property_key_base ||
  (Γ.decl T).hybrid_property_key_base

/-- Source `is_property_key_compile_time_v<T>`, lines 156-164. -/
def is_property_key_compile_time_v (Γ : Program) (T : TypeId) : Bool :=
  (Γ.decl T).constant_property_key_base

/-- The pack expansion `typename EncodedProperties::__detail_key_t ...`:
the key of every element, `none` when an element has no such alias. -/
def key_types (Γ : Program) : List TypeId → Option (List TypeId)
  | [] => some []
  | Property :: Rest =>
    match key_of Γ Property, key_types Γ Rest with
    | some k, some ks => some (k :: ks)
    | _, _ => none

/-- Source `properties<EncodedProperties...>::has_property<PropertyKey>()`,
lines 236-242: the fold of `std::is_same_v` with `||` over the keys of the
pack, under `requires(is_property_key_v<PropertyKey>)`. -/
def has_property (Γ : Program) (EncodedProperties : List TypeId)
    (PropertyKey : TypeId) : Option Bool :=
  if is_property_key_v Γ PropertyKey then
    (key_types Γ EncodedProperties).map
      (fun keys => keys.any (fun k => decide (PropertyKey = k)))
  else none

/-- Source `is_property_key_for_v<T, Class>`, lines 177-181: the primary
template is `std::false_type`, an explicit specialization gives its own
value. -/
def is_property_key_for_v (Γ : Program) (T Class : TypeId) : Bool :=
  (Γ.is_property_key_for_spec T Class).getD false

/-- Source `is_property_for_v<T, Class>`, lines 185-193: an explicit
specialization when there is one; for a property the partial specialization,
which inherits from `is_property_key_for<typename T::__detail_key_t, Class>`
(and does not compile when `T` has no such alias); otherwise the primary
template, `std::false_type`. -/
def is_property_for_v (Γ : Program) (T Class : TypeId) : Option Bool :=
  match Γ.is_property_for_spec T Class with
  | some b => some b
  | none =>
    if is_property_v Γ T then
      (key_of Γ T).map (fun k => is_property_key_for_v Γ k Class)
    else some false

/-- A type that can be passed where a consumer expects `PropertyOrList`:
a class type, or an instantiation `properties<EncodedProperties...>`. -/
inductive CppType where
  | cls (T : TypeId)
  | properties (EncodedProperties : List TypeId)
deriving DecidableEq, Repr

/-- The fold `(is_property_for_v<Properties, Class> && ...)` of line 270;
every operand is instantiated. -/
def all_property_for (Γ : Program) (Class : TypeId) : List TypeId → Option Bool
  | [] => some true
  | Property :: Rest =>
    match is_property_for_v Γ Property Class, all_property_for Γ Class Rest with
    | some b, some r => some (b && r)
    | _, _ => none

/-- Source `is_property_list_for_v<T, Class>`, lines 169-173 and 269-271: the
primary template is `std::false_type`; the partial specialization for
`properties<Properties...>` is `std::true_type` and is chosen when its
`requires` holds. -/
def is_property_list_for_v (Γ : Program) (T : CppType) (Class : TypeId) : Option Bool :=
  match T with
  | .cls _ => some false
  | .properties Properties => all_property_for Γ Class Properties

/-! ## Objects and the `properties` class (lines 205-265) -/

/-- How a constructor argument is written: a temporary (`copy_check{}`), an
expiring value (`std::move(c)`), or a named object (`c`). -/
inductive ValueCategory where
  | prvalue
  | xvalue
  | lvalue
deriving DecidableEq, Repr

/-- A constructor argument: the object denoted and its value category. -/
structure Argument where
  obj : Object
  category : ValueCategory
deriving DecidableEq, Repr

/-- The copy constructor of the object's class applied to it. -/
def copy_construct (Γ : Program) (o : Object) : Object :=
  { o with data := (Γ.decl o.type).copy_ctor o.data }

/-- The move constructor of the object's class applied to it. -/
def move_construct (Γ : Program) (o : Object) : Object :=
  { o with data := (Γ.decl o.type).move_ctor o.data }

/-- Initialisation of a by-value parameter `Properties props` (line 220): a
temporary is constructed in place, an expiring value is moved, a named object
is copied. -/
def pass_by_value (Γ : Program) (a : Argument) : Object :=
  match a.category with
  | .prvalue => a.obj
  | .xvalue => move_construct Γ a.obj
  | .lvalue => copy_construct Γ a.obj

/-- Value-initialisation `T{}`. -/
def value_init (Γ : Program) (T : TypeId) : Option Object :=
  (Γ.decl T).default_ctor.map (fun d => { type := T, data := d })

/-- Member access `o.name`: a data member of the object, else a static member
of its class. -/
def Object.member (Γ : Program) (o : Object) (name : String) : Option Member :=
  match o.data.lookup name with
  | some v => some v
  | none => (Γ.decl o.type).static_members.lookup name

/-- The call `std::get<T>(t)` by type: it compiles only when `T` is the type
of exactly one element of the tuple, and denotes that element. -/
def std_get (T : TypeId) (t : List Object) : Option Object :=
  match t.filter (fun o => decide (o.type = T)) with
  | [o] => some o
  | _ => none

/-- The call `std::tuple_cat(ts...)`: the elements of the tuples, in order. -/
def tuple_cat : List (List Object) → List Object
  | [] => []
  | t :: ts => t ++ tuple_cat ts

/-- An object of class `properties<EncodedProperties...>`; its only data
member is the tuple `stored_properties` (line 212). -/
structure properties where
  EncodedProperties : List TypeId
  stored_properties : List Object
deriving DecidableEq, Repr

/-- The lambda selection of lines 226-231 for one parameter: `std::tuple<>`
for a compile-time property, else `std::tuple<Properties&&>` referring to the
parameter. -/
def runtime_ref (Γ : Program) (prop : Object) : List Object :=
  if is_property_compile_time_v Γ prop.type then [] else [prop]

/-- Source constructor `properties(Properties... props)`, lines 218-234, with
the deduction guide of line 265 (so `EncodedProperties` is `Properties`):
the parameters are initialised from the arguments, `std::tuple_cat` joins the
references to the parameters that have runtime values, and each element of
`stored_properties` is move-constructed from its reference. `none` when
`requires(is_property_v<Properties> && ...)` fails. -/
def properties.ctor (Γ : Program) (args : List Argument) : Option properties :=
  let Properties := args.map (fun a => a.obj.type)
  if Properties.all (is_property_v Γ) then
    let props := args.map (pass_by_value Γ)
    let refs := tuple_cat (props.map (runtime_ref Γ))
    some { EncodedProperties := Properties
           stored_properties := refs.map (move_construct Γ) }
  else none

/-- Source static `get_property<PropertyKey>()`, lines 244-252: under
`requires(is_property_key_compile_time_v<PropertyKey> &&
has_property<PropertyKey>())` the property found for the key, value
initialised. -/
def get_property_compile_time (Γ : Program) (EncodedProperties : List TypeId)
    (PropertyKey : TypeId) : Option Object :=
  if is_property_key_compile_time_v Γ PropertyKey &&
      (has_property Γ EncodedProperties PropertyKey == some true) then
    match find_property Γ PropertyKey EncodedProperties with
    | some Property => value_init Γ Property
    | none => none
  else none

/-- Source member `get_property<PropertyKey>()`, lines 254-261: under
`requires(!is_property_key_compile_time_v<PropertyKey> &&
has_property<PropertyKey>())` a copy (the function returns `auto`, by value)
of the element of `stored_properties` whose type is the property found for
the key. -/
def properties.get_property_runtime (Γ : Program) (self : properties)
    (PropertyKey : TypeId) : Option Object :=
  if !is_property_key_compile_time_v Γ PropertyKey &&
      (has_property Γ self.EncodedProperties PropertyKey == some true) then
    match find_property Γ PropertyKey self.EncodedProperties with
    | some Property =>
      (std_get Property self.stored_properties).map (copy_construct Γ)
    | none => none
  else none

/-- The call `p.get_property<PropertyKey>()` on an instance: overload
resolution between the two functions above, whose constraints exclude each
other. -/
def properties.get_property (Γ : Program) (self : properties)
    (PropertyKey : TypeId) : Option Object :=
  if is_property_key_compile_time_v Γ PropertyKey then
    get_property_compile_time Γ self.EncodedProperties PropertyKey
  else self.get_property_runtime Γ PropertyKey

/-! ## Object sizes

The size of a class is part of its declaration (`sizeof`, `alignof`). A
`std::tuple` is laid out as a struct of its elements: each at the next
offset that is a multiple of its alignment, the whole rounded up to the
largest alignment, and an object without data has size 1. The
`static_assert`s of lines 418-471 are the reference for this layout.

This is the layout of the empty tuple and of a tuple whose element classes
all have a data member. The standard library stores an element whose class
is empty as an empty base, which takes no room of its own; where such an
element is placed is not modelled, and no statement below is made about the
size of a tuple that has one. -/

/-- The least multiple of `align` that is at least `offset`. -/
def align_up (offset align : Nat) : Nat :=
  ((offset + align - 1) / align) * align

/-- End offset of the elements of a tuple laid out from `offset` on. -/
def tuple_end (Γ : Program) : List TypeId → Nat → Nat
  | [], offset => offset
  | T :: Ts, offset =>
    tuple_end Γ Ts (align_up offset (Γ.decl T).alignof + (Γ.decl T).sizeof)

/-- Alignment of a tuple: the largest alignment of its elements. -/
def tuple_align (Γ : Program) (Ts : List TypeId) : Nat :=
  (Ts.map (fun T => (Γ.decl T).alignof)).foldr max 1

/-- The value of `sizeof(std::tuple<Ts...>)`, for `Ts` empty or without an
empty class (see above). -/
def sizeof_tuple (Γ : Program) (Ts : List TypeId) : Nat :=
  max 1 (align_up (tuple_end Γ Ts 0) (tuple_align Γ Ts))

/-- The value of `sizeof(properties<EncodedProperties...>)`: the class has
the single data member `stored_properties`, of type
`filter_runtime_properties_t<EncodedProperties...>` (lines 210-212). -/
def sizeof_properties (Γ : Program) (EncodedProperties : List TypeId) : Nat :=
  sizeof_tuple Γ (filter_runtime_properties_t Γ EncodedProperties)

/-- Sum of the sizes of the given types. -/
def sum_sizeof (Γ : Program) (Ts : List TypeId) : Nat :=
  (Ts.map (fun T => (Γ.decl T).sizeof)).sum

/-! ## The translation unit `poc-properties.cpp` -/

/-- Copy constructor of `copy_check`, lines 630-632. -/
def copy_check_copy (other : Data) : Data :=
  match other.lookup "copy_count" with
  | some (.int n) => [("copy_count", .int (n + 1))]
  | _ => other

/-- Move constructor of `copy_check`, lines 633-635. -/
def copy_check_move (other : Data) : Data :=
  match other.lookup "copy_count" with
  | some (.int n) => [("copy_count", .int n)]
  | _ => other

/-- Class table of the source. Sizes are those of the `static_assert`s of
lines 418-423 with `sizeof(bool) = 1` and `sizeof(int) = 4`. -/
def poc_decl : TypeId → ClassDecl
  | .runtime_property_base => { runtime_property_base := true, default_ctor := some [] }
  | .constant_property_base => { constant_property_base := true, default_ctor := some [] }
  | .constant_property_key_base =>
    { constant_property_key_base := true, default_ctor := some [] }
  | .hybrid_property_base => { hybrid_property_base := true, default_ctor := some [] }
  | .hybrid_property_key_base =>
    { hybrid_property_key_base := true, default_ctor := some [] }
  | .runtime_property Property =>
    { runtime_property_base := true, __detail_key_t := some Property,
      default_ctor := some [] }
  | .constant_value_property_key =>
    { constant_property_key_base := true, default_ctor := some [] }
  | .constant_type_property_key =>
    { constant_property_key_base := true, default_ctor := some [] }
  | .constant_value_property PropertyKey _ Value =>
    { constant_property_base := true, __detail_key_t := some PropertyKey,
      static_members := [("value", .int Value)], default_ctor := some [] }
  | .constant_type_property PropertyKey T =>
    { constant_property_base := true, __detail_key_t := some PropertyKey,
      static_members := [("value_t", .type T)], default_ctor := some [] }
  | .enable_profiling =>
    { runtime_property_base := true, __detail_key_t := some .enable_profiling,
      sizeof := 1, alignof := 1, is_empty := false }
  | .twoarg =>
    { runtime_property_base := true, __detail_key_t := some .twoarg,
      sizeof := 8, alignof := 4, is_empty := false }
  | .alignment_key => { constant_property_key_base := true, default_ctor := some [] }
  | .alignment_type_key => { constant_property_key_base := true, default_ctor := some [] }
  | .threearg_key => { constant_property_key_base := true, default_ctor := some [] }
  | .threearg X Y Z =>
    { constant_property_base := true, __detail_key_t := some .threearg_key,
      static_members := [("x", .int X), ("y", .bool Y), ("z", .int Z)],
      default_ctor := some [] }
  | .hybrid_key => { hybrid_property_key_base := true, default_ctor := some [] }
  | .hybrid X =>
    { hybrid_property_base := true, __detail_key_t := some .hybrid_key,
      static_members := [("x", .int X)], sizeof := 4, alignof := 4, is_empty := false }
  | .copy_check =>
    { runtime_property_base := true, __detail_key_t := some .copy_check,
      default_ctor := some [("copy_count", .int 0)],
      copy_ctor := copy_check_copy, move_ctor := copy_check_move,
      sizeof := 4, alignof := 4, is_empty := false }
  | .queue => { default_ctor := some [] }
  | .bool => { sizeof := 1, alignof := 1, is_empty := false }
  | .int => { sizeof := 4, alignof := 4, is_empty := false }
  | .float => { sizeof := 4, alignof := 4, is_empty := false }
  | .size_t => { sizeof := 8, alignof := 8, is_empty := false }
  | _ => {}

/-- Explicit specializations of `is_property_key_for`, lines 365, 372, 388. -/
def poc_is_property_key_for_spec : TypeId → TypeId → Option Bool
  | .alignment_key, .annotated_ptr_properties => some true
  | .alignment_type_key, .annotated_ptr_properties => some true
  | .threearg_key, .annotated_ptr_properties => some true
  | _, _ => none

/-- Explicit specializations of `is_property_for`, lines 309 and 317. -/
def poc_is_property_for_spec : TypeId → TypeId → Option Bool
  | .enable_profiling, .queue => some true
  | .twoarg, .queue => some true
  | _, _ => none

/-- The translation unit `poc-properties.cpp`. -/
def poc : Program :=
  { decl := poc_decl
    is_property_key_for_spec := poc_is_property_key_for_spec
    is_property_for_spec := poc_is_property_for_spec }

/-! ## The objects built in `main` -/

/-- The object `enable_profiling{v}`. -/
def enable_profiling_obj (v : Bool) : Object :=
  { type := .enable_profiling, data := [("value", .bool v)] }

/-- The object `twoarg{x, y}`. -/
def twoarg_obj (x y : Int) : Object :=
  { type := .twoarg, data := [("one", .int x), ("two", .int y)] }

/-- The object `hybrid<X>{y}`. -/
def hybrid_obj (X y : Int) : Object :=
  { type := .hybrid X, data := [("y", .int y)] }

/-- An object of class `copy_check` with the given count. -/
def copy_check_obj (copy_count : Int) : Object :=
  { type := .copy_check, data := [("copy_count", .int copy_count)] }

/-- An object of a class without data members, such as `alignment<16>`. -/
def tag_obj (T : TypeId) : Object :=
  { type := T, data := [] }

/-- A temporary as constructor argument. -/
def temporary (o : Object) : Argument :=
  { obj := o, category := .prvalue }

/-- A named object as constructor argument. -/
def named (o : Object) : Argument :=
  { obj := o, category := .lvalue }

/-- The source extended by one class, `user 0`, declared as
`struct odd : detail::constant_property_base
{ using __detail_key_t = hybrid_key; };`: a compile-time property whose key
is not a compile-time key. -/
def poc_with_odd : Program :=
  { poc with
    decl := fun T =>
      if T = .user 0 then
        { constant_property_base := true, __detail_key_t := some .hybrid_key,
          default_ctor := some [] }
      else poc_decl T }

/-! ## Constraints of `get_property` -/

/-- The `requires` clause of the static `get_property`, line 245. -/
def get_property_compile_time_requires (Γ : Program) (EncodedProperties : List TypeId)
    (PropertyKey : TypeId) : Bool :=
  is_property_key_compile_time_v Γ PropertyKey &&
    (has_property Γ EncodedProperties PropertyKey == some true)

/-- The `requires` clause of the member `get_property`, line 255. -/
def get_property_runtime_requires (Γ : Program) (EncodedProperties : List TypeId)
    (PropertyKey : TypeId) : Bool :=
  !is_property_key_compile_time_v Γ PropertyKey &&
    (has_property Γ EncodedProperties PropertyKey == some true)

/-- The object a copy was made from, after the copy constructor has run
on it. -/
def copied_from (Γ : Program) (o : Object) : Object :=
  { o with data := (Γ.decl o.type).copy_ctor_source o.data }

/-- A call `p.get_property<PropertyKey>()` as a step on the list object: the
value returned and the list after the call. For a compile-time key the
function called is static and touches no object. Otherwise (lines 256-261,
a member function that is not `const`) the value returned is copy-constructed
from `get<Property>(stored_properties)`, an lvalue that refers to the stored
element of type `Property`, so after the call that element is what the copy
constructor left of its source. A call that does not compile leaves the
list alone. -/
def properties.call_get_property (Γ : Program) (self : properties)
    (PropertyKey : TypeId) : Option Object × properties :=
  let result := self.get_property Γ PropertyKey
  if is_property_key_compile_time_v Γ PropertyKey then (result, self)
  else
    match result, find_property Γ PropertyKey self.EncodedProperties with
    | some _, some Property =>
      (result,
        { self with
          stored_properties := self.stored_properties.map
            (fun o => if o.type = Property then copied_from Γ o else o) })
    | _, _ => (result, self)

/-- Successive calls of `get_property` on one list object, each on the list
the call before it left: the values returned and the list after the last
call. -/
def properties.call_sequence (Γ : Program) (self : properties) :
    List TypeId → List (Option Object) × properties
  | [] => ([], self)
  | PropertyKey :: Rest =>
    let step := self.call_get_property Γ PropertyKey
    let rest := properties.call_sequence Γ step.2 Rest
    (step.1 :: rest.1, rest.2)

/-! ## Consumers: `queue` and `annotated_ptr` (lines 278-360) -/

/-- The trait `is_property_for_v<T, Class>` for any argument type: an
instantiation of `properties` is not a property (it has no marker base) and
the source has no explicit specialization for one. -/
def is_property_for_type (Γ : Program) (T : CppType) (Class : TypeId) : Option Bool :=
  match T with
  | .cls T => is_property_for_v Γ T Class
  | .properties _ => some false

/-- The constraint of the constructors of `queue` (lines 281-282) and of
`annotated_ptr` (lines 335-336), `is_property_for_v<P, Class> ||
is_property_list_for_v<P, Class>`; the second operand is looked at only when
the first is false. -/
def property_or_list_for (Γ : Program) (PropertyOrList : CppType) (Class : TypeId) :
    Option Bool :=
  match is_property_for_type Γ PropertyOrList Class with
  | some true => some true
  | some false => is_property_list_for_v Γ PropertyOrList Class
  | none => none

/-- Source constructor `queue(PropertyOrList props = {})`, lines 280-283:
`PropertyOrList` is the type of the argument, or the default
`empty_properties_t` (line 267) when there is none. The result is
`PropertyOrList` when the constraint holds, `none` when the call is
rejected. -/
def queue.ctor (Γ : Program) (props : Option CppType) : Option CppType :=
  let PropertyOrList := props.getD (.properties [])
  if property_or_list_for Γ PropertyOrList .queue = some true then some PropertyOrList
  else none

/-- Class template argument deduction for `annotated_ptr{p}` and
`annotated_ptr{p, props}`, lines 331-360: the template argument `Properties`.
Without `props` it is the default `empty_properties_t`. With `props` of type
`A` the guide of lines 354-356 gives `A` when `A` is a property list for
`annotated_ptr_properties`; the guide of lines 358-360 gives
`decltype(properties{A{}})`, that is `properties<A>`, when `A` is a property
for it (and `properties{A{}}` compiles); a declared guide is preferred to the
one formed from the constructor, which gives `A` itself. -/
def annotated_ptr.deduce (Γ : Program) (props : Option CppType) : Option CppType :=
  match props with
  | none => some (.properties [])
  | some A =>
    if is_property_list_for_v Γ A .annotated_ptr_properties = some true then some A
    else
      match A with
      | .cls Property =>
        if is_property_for_v Γ Property .annotated_ptr_properties = some true then
          if is_property_v Γ Property && (value_init Γ Property).isSome then
            some (.properties [Property])
          else some (.cls Property)
        else none
      | .properties _ => none

/-- Source constructor `annotated_ptr(T* p, const Properties& props = {})`,
lines 334-337, after deduction: the class argument `Properties` when the
constraint holds for it, `none` when the construction is rejected. -/
def annotated_ptr.ctor (Γ : Program) (props : Option CppType) : Option CppType :=
  match annotated_ptr.deduce Γ props with
  | some Properties =>
    if property_or_list_for Γ Properties .annotated_ptr_properties = some true then
      some Properties
    else none
  | none => none

/-- Source `annotated_ptr<T, Properties>::has_property<PropertyKey>()`, lines
339-343: under `requires(is_property_key_for_v<PropertyKey,
annotated_ptr_properties>)` the call `Properties::template
has_property<PropertyKey>()`; a class that is not a property list has no such
member. -/
def annotated_ptr.has_property (Γ : Program) (Properties : CppType)
    (PropertyKey : TypeId) : Option Bool :=
  if is_property_key_for_v Γ PropertyKey .annotated_ptr_properties then
    match Properties with
    | .properties EncodedProperties => sycl.has_property Γ EncodedProperties PropertyKey
    | .cls _ => none
  else none

/-- Source `annotated_ptr<T, Properties>::get_property<PropertyKey>()`, lines
345-349: under the same `requires` the call `Properties::template
get_property<PropertyKey>()`, made without an object, so only the static
`get_property` of the list can serve it. -/
def annotated_ptr.get_property (Γ : Program) (Properties : CppType)
    (PropertyKey : TypeId) : Option Object :=
  if is_property_key_for_v Γ PropertyKey .annotated_ptr_properties then
    match Properties with
    | .properties EncodedProperties =>
      get_property_compile_time Γ EncodedProperties PropertyKey
    | .cls _ => none
  else none

/-! ## Declaring properties (lines 16-61 and 304-407) -/

/-- A class that has `base` as its only base class and declares no
`__detail_key_t` of its own: its marker bases and its alias are those of
`base`. -/
def ClassDecl.inherits (d base : ClassDecl) : Bool :=
  (d.runtime_property_base == base.runtime_property_base) &&
  (d.constant_property_base == base.constant_property_base) &&
  (d.constant_property_key_base == base.constant_property_key_base) &&
  (d.hybrid_property_base == base.hybrid_property_base) &&
  (d.hybrid_property_key_base == base.hybrid_property_key_base) &&
  (d.__detail_key_t == base.__detail_key_t)

/-- The category of a property agrees with that of its key:
`is_property_compile_time_v<P>` is
`is_property_key_compile_time_v<typename P::__detail_key_t>`. -/
def category_agrees (Γ : Program) (Property : TypeId) : Bool :=
  match key_of Γ Property with
  | some k => is_property_compile_time_v Γ Property == is_property_key_compile_time_v Γ k
  | none => false

/-- The property classes the source declares: `enable_profiling`, `twoarg`,
`alignment<N>`, `alignment_type<T>`, `threearg<X, Y, Z>`, `hybrid<X>` and
`copy_check`. -/
def declared_property : TypeId → Bool
  | .enable_profiling => true
  | .twoarg => true
  | .copy_check => true
  | .constant_value_property .alignment_key .size_t Value => decide (0 ≤ Value)
  | .constant_type_property .alignment_type_key _ => true
  | .threearg _ _ _ => true
  | .hybrid _ => true
  | _ => false

/-- The source extended by one class, `user 1`, declared as
`struct nodflt : detail::constant_property_base
{ nodflt(int) {} using __detail_key_t = alignment_key; };`: a property with
the key of `alignment` and without a default constructor. -/
def poc_with_nodflt : Program :=
  { poc with
    decl := fun T =>
      if T = .user 1 then
        { constant_property_base := true, __detail_key_t := some .alignment_key,
          default_ctor := none }
      else poc_decl T }

/-- Copy constructor of `tally` below, seen from its source: the count of the
source goes up by one. -/
def tally_copied_from (other : Data) : Data :=
  match other.lookup "n" with
  | some (.int n) => [("n", .int (n + 1))]
  | _ => other

/-- The source extended by one class, `user 2`, declared as
`struct tally : detail::runtime_property<tally>
{ tally(int n) : n{n} {}
  tally(const tally& other) : n{other.n} { ++other.n; }
  mutable int n; };`: a runtime property that counts in the source how often
it was copied. The new object takes the count the source had. -/
def poc_with_tally : Program :=
  { poc with
    decl := fun T =>
      if T = .user 2 then
        { runtime_property_base := true, __detail_key_t := some (.user 2),
          copy_ctor_source := tally_copied_from,
          sizeof := 4, alignof := 4, is_empty := false }
      else poc_decl T }

/-- An object of class `tally` with the given count. -/
def tally_obj (n : Int) : Object :=
  { type := .user 2, data := [("n", .int n)] }

/-! ## Lemmas on the pack algorithms -/

theorem key_types_of_declared (Γ : Program) (Ps : List TypeId)
    (hPs : ∀ P ∈ Ps, key_of Γ P ≠ none) :
    ∃ ks, key_types Γ Ps = some ks ∧ ks.map some = Ps.map (key_of Γ) := by
  induction Ps with
  | nil => exact ⟨[], rfl, rfl⟩
  | cons P Rest ih =>
    obtain ⟨ks, hks, hmap⟩ := ih (fun Q hQ => hPs Q (List.mem_cons_of_mem _ hQ))
    have hP := hPs P (List.mem_cons_self _ _)
    cases hk : key_of Γ P with
    | none => exact absurd hk hP
    | some k =>
      refine ⟨k :: ks, ?_, ?_⟩
      · simp [key_types, hk, hks]
      · simp [hmap, hk]

theorem any_key_iff (Γ : Program) (K : TypeId) (Ps ks : List TypeId)
    (hmap : ks.map some = Ps.map (key_of Γ)) :
    ks.any (fun k => decide (K = k)) = true ↔ ∃ P ∈ Ps, key_of Γ P = some K := by
  induction Ps generalizing ks with
  | nil =>
    cases ks with
    | nil => simp
    | cons k ks => simp at hmap
  | cons P Rest ih =>
    cases ks with
    | nil => simp at hmap
    | cons k ks =>
      simp only [List.map_cons, List.cons.injEq] at hmap
      have h := ih ks hmap.2
      simp only [List.any_cons, Bool.or_eq_true, decide_eq_true_eq, h, List.mem_cons,
        exists_eq_or_imp, ← hmap.1, Option.some.injEq]
      constructor
      · rintro (h1 | h1)
        · exact Or.inl h1.symm
        · exact Or.inr h1
      · rintro (h1 | h1)
        · exact Or.inl h1.symm
        · exact Or.inr h1

theorem has_property_of_declared (Γ : Program) (Ps : List TypeId) (K : TypeId)
    (hK : is_property_key_v Γ K = true) (hPs : ∀ P ∈ Ps, key_of Γ P ≠ none) :
    ∃ b, has_property Γ Ps K = some b ∧ (b = true ↔ ∃ P ∈ Ps, key_of Γ P = some K) := by
  obtain ⟨ks, hks, hmap⟩ := key_types_of_declared Γ Ps hPs
  refine ⟨ks.any (fun k => decide (K = k)), ?_, any_key_iff Γ K Ps ks hmap⟩
  simp [has_property, hK, hks]

theorem find_property_absent (Γ : Program) (K : TypeId) (Ps : List TypeId)
    (hPs : ∀ P ∈ Ps, key_of Γ P ≠ none) (hno : ∀ P ∈ Ps, key_of Γ P ≠ some K) :
    find_property Γ K Ps = some .void := by
  induction Ps with
  | nil => rfl
  | cons P Rest ih =>
    have hr := ih (fun Q hQ => hPs Q (List.mem_cons_of_mem _ hQ))
      (fun Q hQ => hno Q (List.mem_cons_of_mem _ hQ))
    have hP := hPs P (List.mem_cons_self _ _)
    have hn := hno P (List.mem_cons_self _ _)
    cases hk : key_of Γ P with
    | none => exact absurd hk hP
    | some k =>
      have hne : K ≠ k := fun h => hn (by rw [hk, h])
      simp [find_property, hk, hr, hne]

theorem find_property_total (Γ : Program) (K : TypeId) (Ps : List TypeId)
    (hPs : ∀ P ∈ Ps, key_of Γ P ≠ none) :
    ∃ r, find_property Γ K Ps = some r := by
  induction Ps with
  | nil => exact ⟨.void, rfl⟩
  | cons P Rest ih =>
    obtain ⟨r, hr⟩ := ih (fun Q hQ => hPs Q (List.mem_cons_of_mem _ hQ))
    have hP := hPs P (List.mem_cons_self _ _)
    cases hk : key_of Γ P with
    | none => exact absurd hk hP
    | some k => exact ⟨if K = k then P else r, by simp [find_property, hk, hr]⟩

theorem find_property_first (Γ : Program) (K : TypeId) (front : List TypeId) (P : TypeId)
    (back : List TypeId) (hPs : ∀ Q ∈ front ++ P :: back, key_of Γ Q ≠ none)
    (hfront : ∀ Q ∈ front, key_of Γ Q ≠ some K) (hP : key_of Γ P = some K) :
    find_property Γ K (front ++ P :: back) = some P := by
  induction front with
  | nil =>
    obtain ⟨r, hr⟩ := find_property_total Γ K back
      (fun Q hQ => hPs Q (by simp [hQ]))
    simp [find_property, hP, hr]
  | cons Q front ih =>
    have hr := ih (fun R hR => hPs R (by simp at hR ⊢; tauto))
      (fun R hR => hfront R (List.mem_cons_of_mem _ hR))
    have hQ := hPs Q (by simp)
    have hn := hfront Q (List.mem_cons_self _ _)
    cases hk : key_of Γ Q with
    | none => exact absurd hk hQ
    | some k =>
      have hne : K ≠ k := fun h => hn (by rw [hk, h])
      simp [find_property, hk, hr, hne]

theorem filter_runtime_properties_eq_filter (Γ : Program) (Ps : List TypeId) :
    filter_runtime_properties_t Γ Ps =
      Ps.filter (fun P => !is_property_compile_time_v Γ P) := by
  induction Ps with
  | nil => rfl
  | cons P Rest ih =>
    cases h : is_property_compile_time_v Γ P <;>
      simp [filter_runtime_properties_t, tuple_concat_t, h, ih]

theorem all_property_for_eq_true_iff (Γ : Program) (Class : TypeId) (Ps : List TypeId) :
    all_property_for Γ Class Ps = some true ↔
      ∀ P ∈ Ps, is_property_for_v Γ P Class = some true := by
  induction Ps with
  | nil => simp [all_property_for]
  | cons P Rest ih =>
    simp only [List.mem_cons, forall_eq_or_imp, ← ih]
    cases hP : is_property_for_v Γ P Class with
    | none => simp [all_property_for, hP]
    | some b =>
      cases hr : all_property_for Γ Class Rest with
      | none => simp [all_property_for, hP, hr]
      | some r => simp [all_property_for, hP, hr]

theorem all_property_for_total (Γ : Program) (Class : TypeId) (Ps : List TypeId)
    (hPs : ∀ P ∈ Ps, ∃ b, is_property_for_v Γ P Class = some b) :
    ∃ b, all_property_for Γ Class Ps = some b := by
  induction Ps with
  | nil => exact ⟨true, rfl⟩
  | cons P Rest ih =>
    obtain ⟨r, hr⟩ := ih (fun Q hQ => hPs Q (List.mem_cons_of_mem _ hQ))
    obtain ⟨b, hb⟩ := hPs P (List.mem_cons_self _ _)
    exact ⟨b && r, by simp [all_property_for, hb, hr]⟩

/-! ## Lemmas on construction -/

theorem pass_by_value_type (Γ : Program) (a : Argument) :
    (pass_by_value Γ a).type = a.obj.type := by
  cases a with
  | mk obj category => cases category <;> rfl

theorem ctor_eq (Γ : Program) (args : List Argument)
    (hprops : ∀ x ∈ args, is_property_v Γ x.obj.type = true) :
    properties.ctor Γ args = some
      { EncodedProperties := args.map (fun a => a.obj.type)
        stored_properties :=
          (tuple_cat ((args.map (pass_by_value Γ)).map (runtime_ref Γ))).map
            (move_construct Γ) } := by
  have h : (args.map (fun a => a.obj.type)).all (is_property_v Γ) = true := by
    simp only [List.all_eq_true, List.mem_map]
    rintro T ⟨x, hx, rfl⟩
    exact hprops x hx
  simp [properties.ctor, h]

theorem stored_cons (Γ : Program) (a : Argument) (args : List Argument) :
    (tuple_cat (((a :: args).map (pass_by_value Γ)).map (runtime_ref Γ))).map
        (move_construct Γ) =
      (if is_property_compile_time_v Γ a.obj.type then []
        else [move_construct Γ (pass_by_value Γ a)]) ++
      (tuple_cat ((args.map (pass_by_value Γ)).map (runtime_ref Γ))).map
        (move_construct Γ) := by
  cases h : is_property_compile_time_v Γ a.obj.type <;>
    simp [tuple_cat, runtime_ref, pass_by_value_type, h]

theorem stored_append (Γ : Program) (xs ys : List Argument) :
    (tuple_cat (((xs ++ ys).map (pass_by_value Γ)).map (runtime_ref Γ))).map
        (move_construct Γ) =
      (tuple_cat ((xs.map (pass_by_value Γ)).map (runtime_ref Γ))).map (move_construct Γ) ++
      (tuple_cat ((ys.map (pass_by_value Γ)).map (runtime_ref Γ))).map
        (move_construct Γ) := by
  induction xs with
  | nil => simp [tuple_cat]
  | cons a xs ih =>
    rw [List.cons_append, stored_cons, stored_cons, ih, List.append_assoc]

theorem stored_compile_time (Γ : Program) (args : List Argument)
    (hct : ∀ x ∈ args, is_property_compile_time_v Γ x.obj.type = true) :
    (tuple_cat ((args.map (pass_by_value Γ)).map (runtime_ref Γ))).map
      (move_construct Γ) = [] := by
  induction args with
  | nil => rfl
  | cons a args ih =>
    rw [stored_cons, ih (fun x hx => hct x (List.mem_cons_of_mem _ hx)),
      hct a (List.mem_cons_self _ _)]
    rfl

theorem stored_types (Γ : Program) (args : List Argument) :
    ((tuple_cat ((args.map (pass_by_value Γ)).map (runtime_ref Γ))).map
      (move_construct Γ)).map (fun o => o.type) =
      filter_runtime_properties_t Γ (args.map (fun a => a.obj.type)) := by
  induction args with
  | nil => rfl
  | cons a args ih =>
    rw [stored_cons, List.map_append, ih]
    cases h : is_property_compile_time_v Γ a.obj.type <;>
      simp [filter_runtime_properties_t, tuple_concat_t, h, move_construct, pass_by_value_type]

theorem is_property_of_compile_time (Γ : Program) (T : TypeId)
    (h : is_property_compile_time_v Γ T = true) : is_property_v Γ T = true := by
  simp only [is_property_compile_time_v] at h
  simp [is_property_v, h]

/-! ## Lemmas on sizes -/

theorem le_align_up (offset align : Nat) (h : 0 < align) : offset ≤ align_up offset align := by
  unfold align_up
  have h1 := Nat.div_add_mod (offset + align - 1) align
  have h2 := Nat.mod_lt (offset + align - 1) h
  have h3 : align * ((offset + align - 1) / align) = (offset + align - 1) / align * align :=
    Nat.mul_comm _ _
  omega

theorem align_up_of_dvd (offset align : Nat) (h : 0 < align) (hd : align ∣ offset) :
    align_up offset align = offset := by
  obtain ⟨k, rfl⟩ := hd
  unfold align_up
  have h1 : (align * k + align - 1) / align = k := by
    have h2 : align * k + align - 1 = (align - 1) + align * k := by omega
    rw [h2, Nat.add_mul_div_left _ _ h, Nat.div_eq_of_lt (by omega)]
    simp
  rw [h1, Nat.mul_comm]

theorem tuple_end_ge (Γ : Program) (Ts : List TypeId) (offset : Nat)
    (halign : ∀ T ∈ Ts, 0 < (Γ.decl T).alignof) :
    offset + sum_sizeof Γ Ts ≤ tuple_end Γ Ts offset := by
  induction Ts generalizing offset with
  | nil => simp [sum_sizeof, tuple_end]
  | cons T Ts ih =>
    have h1 := ih (align_up offset (Γ.decl T).alignof + (Γ.decl T).sizeof)
      (fun U hU => halign U (List.mem_cons_of_mem _ hU))
    have h2 := le_align_up offset _ (halign T (List.mem_cons_self _ _))
    simp only [sum_sizeof, List.map_cons, List.sum_cons, tuple_end] at h1 ⊢
    omega

theorem tuple_align_pos (Γ : Program) (Ts : List TypeId) : 0 < tuple_align Γ Ts := by
  induction Ts with
  | nil => simp [tuple_align]
  | cons T Ts ih =>
    simp only [tuple_align, List.map_cons, List.foldr_cons] at ih ⊢
    omega

theorem tuple_align_uniform (Γ : Program) (Ts : List TypeId) (a : Nat) (ha : 0 < a)
    (hne : Ts ≠ []) (halign : ∀ T ∈ Ts, (Γ.decl T).alignof = a) : tuple_align Γ Ts = a := by
  induction Ts with
  | nil => exact absurd rfl hne
  | cons T Ts ih =>
    have hT := halign T (List.mem_cons_self _ _)
    cases Ts with
    | nil =>
      simp only [tuple_align, List.map_cons, List.map_nil, List.foldr_cons, List.foldr_nil, hT]
      omega
    | cons U Us =>
      have h := ih (by simp) (fun V hV => halign V (List.mem_cons_of_mem _ hV))
      simp only [tuple_align, List.map_cons, List.foldr_cons] at h ⊢
      rw [h, hT]
      simp

theorem tuple_end_uniform (Γ : Program) (Ts : List TypeId) (a offset : Nat) (ha : 0 < a)
    (halign : ∀ T ∈ Ts, (Γ.decl T).alignof = a) (hsize : ∀ T ∈ Ts, a ∣ (Γ.decl T).sizeof)
    (hoff : a ∣ offset) :
    tuple_end Γ Ts offset = offset + sum_sizeof Γ Ts ∧ a ∣ tuple_end Γ Ts offset := by
  induction Ts generalizing offset with
  | nil => simpa [tuple_end, sum_sizeof] using hoff
  | cons T Ts ih =>
    have hT := halign T (List.mem_cons_self _ _)
    have hs := hsize T (List.mem_cons_self _ _)
    have h := ih (offset + (Γ.decl T).sizeof)
      (fun U hU => halign U (List.mem_cons_of_mem _ hU))
      (fun U hU => hsize U (List.mem_cons_of_mem _ hU)) (Nat.dvd_add hoff hs)
    simp only [tuple_end, hT, align_up_of_dvd offset a ha hoff, sum_sizeof, List.map_cons,
      List.sum_cons] at h ⊢
    refine ⟨?_, h.2⟩
    rw [h.1]
    omega

/-! ## Lemmas on lookup in the stored tuple -/

theorem stored_filter_other (Γ : Program) (T : TypeId) (xs : List Argument)
    (h : ∀ x ∈ xs, x.obj.type ≠ T) :
    ((tuple_cat ((xs.map (pass_by_value Γ)).map (runtime_ref Γ))).map
      (move_construct Γ)).filter (fun o => decide (o.type = T)) = [] := by
  induction xs with
  | nil => rfl
  | cons x xs ih =>
    rw [stored_cons, List.filter_append, ih (fun y hy => h y (List.mem_cons_of_mem _ hy))]
    have hx := h x (List.mem_cons_self _ _)
    cases hc : is_property_compile_time_v Γ x.obj.type <;>
      simp [move_construct, pass_by_value_type, hx]

theorem std_get_stored (Γ : Program) (front : List Argument) (a : Argument)
    (back : List Argument) (hfront : ∀ x ∈ front, x.obj.type ≠ a.obj.type)
    (hback : ∀ x ∈ back, x.obj.type ≠ a.obj.type)
    (hrt : is_property_compile_time_v Γ a.obj.type = false) :
    std_get a.obj.type
      ((tuple_cat (((front ++ a :: back).map (pass_by_value Γ)).map (runtime_ref Γ))).map
        (move_construct Γ)) = some (move_construct Γ (pass_by_value Γ a)) := by
  unfold std_get
  rw [stored_append, stored_cons, List.filter_append, List.filter_append,
    stored_filter_other Γ _ front hfront, stored_filter_other Γ _ back hback, hrt]
  simp [move_construct, pass_by_value_type]

theorem distinct_keys_split (Γ : Program) (front : List Argument) (a : Argument)
    (back : List Argument)
    (hdistinct : ((front ++ a :: back).map (fun x => key_of Γ x.obj.type)).Nodup) :
    (∀ x ∈ front, key_of Γ x.obj.type ≠ key_of Γ a.obj.type) ∧
    (∀ x ∈ back, key_of Γ x.obj.type ≠ key_of Γ a.obj.type) := by
  rw [List.map_append, List.map_cons, List.nodup_append] at hdistinct
  obtain ⟨_, h2, h3⟩ := hdistinct
  rw [List.nodup_cons] at h2
  constructor
  · intro x hx heq
    exact h3 (List.mem_map.2 ⟨x, hx, rfl⟩) (heq ▸ List.mem_cons_self _ _)
  · intro x hx heq
    exact h2.1 (heq ▸ List.mem_map.2 ⟨x, hx, rfl⟩)

theorem distinct_keys_split_types (Γ : Program) (front : List TypeId) (P : TypeId)
    (back : List TypeId) (hdistinct : ((front ++ P :: back).map (key_of Γ)).Nodup) :
    ∀ Q ∈ front, key_of Γ Q ≠ key_of Γ P := by
  rw [List.map_append, List.map_cons, List.nodup_append] at hdistinct
  obtain ⟨_, _, h3⟩ := hdistinct
  intro Q hQ heq
  exact h3 (List.mem_map.2 ⟨Q, hQ, rfl⟩) (heq ▸ List.mem_cons_self _ _)

theorem has_property_present (Γ : Program) (Ps : List TypeId) (K P : TypeId)
    (hK : is_property_key_v Γ K = true) (hPs : ∀ Q ∈ Ps, key_of Γ Q ≠ none)
    (hP : P ∈ Ps) (hPK : key_of Γ P = some K) : has_property Γ Ps K = some true := by
  obtain ⟨b, hb, hiff⟩ := has_property_of_declared Γ Ps K hK hPs
  rw [hb, hiff.2 ⟨P, hP, hPK⟩]

theorem find_property_distinct (Γ : Program) (Ps : List TypeId) (K P : TypeId)
    (hPs : ∀ Q ∈ Ps, key_of Γ Q ≠ none) (hdistinct : (Ps.map (key_of Γ)).Nodup)
    (hP : P ∈ Ps) (hPK : key_of Γ P = some K) : find_property Γ K Ps = some P := by
  obtain ⟨front, back, rfl⟩ := List.append_of_mem hP
  refine find_property_first Γ K front P back hPs ?_ hPK
  intro Q hQ
  rw [← hPK]
  exact distinct_keys_split_types Γ front P back hdistinct Q hQ

/-! ## Lemmas on the consumers -/

theorem poc_is_property_for_spec_cases (T C : TypeId) (b : Bool)
    (h : poc_is_property_for_spec T C = some b) :
    (T = .enable_profiling ∨ T = .twoarg) ∧ C = .queue ∧ b = true := by
  unfold poc_is_property_for_spec at h
  split at h <;> simp_all

theorem poc_is_property_key_for_spec_cases (K C : TypeId) (b : Bool)
    (h : poc_is_property_key_for_spec K C = some b) :
    (K = .alignment_key ∨ K = .alignment_type_key ∨ K = .threearg_key) ∧
      C = .annotated_ptr_properties ∧ b = true := by
  unfold poc_is_property_key_for_spec at h
  split at h <;> simp_all

theorem is_property_for_cases (Γ : Program) (T C : TypeId)
    (h : is_property_for_v Γ T C = some true) :
    Γ.is_property_for_spec T C = some true ∨
      (is_property_v Γ T = true ∧
        ∃ k, key_of Γ T = some k ∧ is_property_key_for_v Γ k C = true) := by
  unfold is_property_for_v at h
  cases hs : Γ.is_property_for_spec T C with
  | some b =>
    rw [hs] at h
    simp only [Option.some.injEq] at h
    exact Or.inl (by rw [h])
  | none =>
    rw [hs] at h
    right
    cases hp : is_property_v Γ T with
    | false => simp [hp] at h
    | true =>
      simp only [hp, if_true] at h
      cases hk : key_of Γ T with
      | none => simp [hk] at h
      | some k =>
        simp only [hk, Option.map_some', Option.some.injEq] at h
        exact ⟨rfl, k, rfl, h⟩

theorem property_or_list_for_cls (Γ : Program) (A C : TypeId) :
    property_or_list_for Γ (.cls A) C = some true ↔ is_property_for_v Γ A C = some true := by
  unfold property_or_list_for is_property_for_type is_property_list_for_v
  cases h : is_property_for_v Γ A C with
  | none => simp [h]
  | some b => cases b <;> simp [h]

theorem property_or_list_for_properties (Γ : Program) (L : List TypeId) (C : TypeId) :
    property_or_list_for Γ (.properties L) C = is_property_list_for_v Γ (.properties L) C := by
  simp [property_or_list_for, is_property_for_type]

theorem queue_ctor_cls (Γ : Program) (A : TypeId) :
    queue.ctor Γ (some (.cls A)) =
      if is_property_for_v Γ A .queue = some true then some (.cls A) else none := by
  simp only [queue.ctor, Option.getD_some, property_or_list_for_cls]

theorem annotated_ptr_ctor_cls (Γ : Program) (A : TypeId) :
    annotated_ptr.ctor Γ (some (.cls A)) =
      if is_property_for_v Γ A .annotated_ptr_properties = some true then
        (if is_property_v Γ A && (value_init Γ A).isSome then some (.properties [A])
          else some (.cls A))
      else none := by
  by_cases h : is_property_for_v Γ A .annotated_ptr_properties = some true
  · by_cases hd : (is_property_v Γ A && (value_init Γ A).isSome) = true
    · simp [annotated_ptr.ctor, annotated_ptr.deduce, is_property_list_for_v, h, hd,
        property_or_list_for_properties, all_property_for]
    · simp [annotated_ptr.ctor, annotated_ptr.deduce, is_property_list_for_v, h, hd,
        property_or_list_for_cls]
  · simp [annotated_ptr.ctor, annotated_ptr.deduce, is_property_list_for_v, h]

/-! ## Lemmas on duplicates and on declared properties -/

theorem stored_filter_eq (Γ : Program) (T : TypeId) (args : List Argument) :
    ((tuple_cat ((args.map (pass_by_value Γ)).map (runtime_ref Γ))).map
      (move_construct Γ)).filter (fun o => decide (o.type = T)) =
    (args.filter (fun x => decide (x.obj.type = T) &&
      !is_property_compile_time_v Γ x.obj.type)).map
        (fun x => move_construct Γ (pass_by_value Γ x)) := by
  induction args with
  | nil => rfl
  | cons x xs ih =>
    rw [stored_cons, List.filter_append, ih]
    by_cases hx : x.obj.type = T
    · subst hx
      cases hc : is_property_compile_time_v Γ x.obj.type <;>
        simp [List.filter_cons, move_construct, pass_by_value_type, hc]
    · cases hc : is_property_compile_time_v Γ x.obj.type <;>
        simp [List.filter_cons, move_construct, pass_by_value_type, hc, hx]

theorem std_get_twice (Γ : Program) (front : List Argument) (a : Argument)
    (back : List Argument) (hrt : is_property_compile_time_v Γ a.obj.type = false)
    (hdup : ∃ x ∈ back, x.obj.type = a.obj.type) :
    std_get a.obj.type
      ((tuple_cat (((front ++ a :: back).map (pass_by_value Γ)).map (runtime_ref Γ))).map
        (move_construct Γ)) = none := by
  obtain ⟨x, hx, hxa⟩ := hdup
  obtain ⟨b1, b2, rfl⟩ := List.append_of_mem hx
  have hxrt : is_property_compile_time_v Γ x.obj.type = false := by rw [hxa, hrt]
  unfold std_get
  rw [stored_filter_eq]
  simp only [List.filter_append, List.filter_cons, hrt, hxrt, hxa, decide_True, Bool.not_false,
    Bool.and_self, if_true, List.map_append, List.map_cons]
  generalize (List.filter (fun x => decide (x.obj.type = a.obj.type) &&
    !is_property_compile_time_v Γ x.obj.type) front).map
      (fun x => move_construct Γ (pass_by_value Γ x)) = l1
  generalize (List.filter (fun x => decide (x.obj.type = a.obj.type) &&
    !is_property_compile_time_v Γ x.obj.type) b1).map
      (fun x => move_construct Γ (pass_by_value Γ x)) = l2
  cases l1 with
  | nil =>
    cases l2 with
    | nil => rfl
    | cons o l2 => rfl
  | cons o l1 =>
    cases l1 with
    | nil => rfl
    | cons o2 l1 => rfl

theorem declared_property_facts (P : TypeId) (h : declared_property P = true) :
    category_agrees poc P = true ∧ is_property_v poc P = true ∧
      ∃ k, key_of poc P = some k ∧ is_property_key_v poc k = true ∧
        (is_property_compile_time_v poc P = true ↔
          is_property_key_compile_time_v poc k = true) := by
  unfold declared_property at h
  split at h
  · exact ⟨rfl, rfl, .enable_profiling, rfl, rfl, by decide⟩
  · exact ⟨rfl, rfl, .twoarg, rfl, rfl, by decide⟩
  · exact ⟨rfl, rfl, .copy_check, rfl, rfl, by decide⟩
  · exact ⟨rfl, rfl, .alignment_key, rfl, rfl,
      by simp [is_property_compile_time_v, is_property_key_compile_time_v, poc, poc_decl]⟩
  · exact ⟨rfl, rfl, .alignment_type_key, rfl, rfl,
      by simp [is_property_compile_time_v, is_property_key_compile_time_v, poc, poc_decl]⟩
  · exact ⟨rfl, rfl, .threearg_key, rfl, rfl,
      by simp [is_property_compile_time_v, is_property_key_compile_time_v, poc, poc_decl]⟩
  · exact ⟨rfl, rfl, .hybrid_key, rfl, rfl,
      by simp [is_property_compile_time_v, is_property_key_compile_time_v, poc, poc_decl]⟩
  · exact absurd h (by simp)

theorem poc_annotated_ptr_keys (K : TypeId)
    (h : is_property_key_for_v poc K .annotated_ptr_properties = true) :
    is_property_key_compile_time_v poc K = true := by
  have hspec : poc_is_property_key_for_spec K .annotated_ptr_properties = some true := by
    simp only [is_property_key_for_v, poc] at h
    cases hs : poc_is_property_key_for_spec K .annotated_ptr_properties with
    | none => simp [hs] at h
    | some b =>
      simp only [hs, Option.getD_some] at h
      rw [h]
  rcases (poc_is_property_key_for_spec_cases K _ true hspec).1 with rfl | rfl | rfl <;> rfl

theorem accepted_is_compile_time (Γ : Program) (P Class : TypeId)
    (hspec : Γ.is_property_for_spec P Class ≠ some true)
    (hkeys : ∀ K, is_property_key_for_v Γ K Class = true →
      is_property_key_compile_time_v Γ K = true)
    (hagree : category_agrees Γ P = true)
    (hfor : is_property_for_v Γ P Class = some true) :
    is_property_compile_time_v Γ P = true := by
  rcases is_property_for_cases Γ P Class hfor with h | ⟨_, k, hk, hkfor⟩
  · exact absurd h hspec
  · simp only [category_agrees, hk, beq_iff_eq] at hagree
    rw [hagree]
    exact hkeys k hkfor

/-! ## Lemmas relating the two searches and the order of the pack -/

theorem key_types_none_of_missing (Γ : Program) (Ps : List TypeId) (P : TypeId)
    (hP : P ∈ Ps) (hk : key_of Γ P = none) : key_types Γ Ps = none := by
  induction Ps with
  | nil => simp at hP
  | cons Q Rest ih =>
    rcases List.mem_cons.1 hP with rfl | h
    · simp [key_types, hk]
    · cases hq : key_of Γ Q <;> simp [key_types, hq, ih h]

theorem declared_of_has_property (Γ : Program) (Ps : List TypeId) (K : TypeId) (b : Bool)
    (h : has_property Γ Ps K = some b) :
    is_property_key_v Γ K = true ∧ ∀ P ∈ Ps, key_of Γ P ≠ none := by
  cases hK : is_property_key_v Γ K with
  | false => simp [has_property, hK] at h
  | true =>
    refine ⟨rfl, ?_⟩
    intro P hP hk
    simp [has_property, hK, key_types_none_of_missing Γ Ps P hP hk] at h

theorem find_property_none_of_missing (Γ : Program) (K : TypeId) (Ps : List TypeId)
    (P : TypeId) (hP : P ∈ Ps) (hk : key_of Γ P = none) : find_property Γ K Ps = none := by
  induction Ps with
  | nil => simp at hP
  | cons Q Rest ih =>
    rcases List.mem_cons.1 hP with rfl | h
    · simp [find_property, hk]
    · cases hq : key_of Γ Q <;> simp [find_property, hq, ih h]

theorem declared_of_find_property (Γ : Program) (K : TypeId) (Ps : List TypeId) (r : TypeId)
    (h : find_property Γ K Ps = some r) : ∀ P ∈ Ps, key_of Γ P ≠ none := by
  intro P hP hk
  rw [find_property_none_of_missing Γ K Ps P hP hk] at h
  exact absurd h (by simp)

theorem find_property_of_present (Γ : Program) (K : TypeId) (Ps : List TypeId)
    (hPs : ∀ P ∈ Ps, key_of Γ P ≠ none) (hex : ∃ P ∈ Ps, key_of Γ P = some K) :
    ∃ P, find_property Γ K Ps = some P ∧ P ∈ Ps ∧ key_of Γ P = some K := by
  induction Ps with
  | nil =>
    obtain ⟨P, hP, _⟩ := hex
    simp at hP
  | cons Q Rest ih =>
    have hRest : ∀ P ∈ Rest, key_of Γ P ≠ none :=
      fun P hP => hPs P (List.mem_cons_of_mem _ hP)
    obtain ⟨r, hr⟩ := find_property_total Γ K Rest hRest
    cases hq : key_of Γ Q with
    | none => exact absurd hq (hPs Q (List.mem_cons_self _ _))
    | some k =>
      by_cases hKk : K = k
      · subst hKk
        exact ⟨Q, by simp [find_property, hq, hr], List.mem_cons_self _ _, hq⟩
      · have hex2 : ∃ P ∈ Rest, key_of Γ P = some K := by
          obtain ⟨P, hP, hPK⟩ := hex
          rcases List.mem_cons.1 hP with rfl | h
          · rw [hq] at hPK
            exact absurd (Option.some.inj hPK).symm hKk
          · exact ⟨P, h, hPK⟩
        obtain ⟨P, hfind, hmem, hPK⟩ := ih hRest hex2
        refine ⟨P, ?_, List.mem_cons_of_mem _ hmem, hPK⟩
        rw [hr] at hfind
        simp [find_property, hq, hr, hKk, Option.some.inj hfind]

theorem find_property_cases (Γ : Program) (K : TypeId) (Ps : List TypeId) (r : TypeId)
    (h : find_property Γ K Ps = some r) :
    (r = .void ∧ ∀ P ∈ Ps, key_of Γ P ≠ some K) ∨ (r ∈ Ps ∧ key_of Γ r = some K) := by
  have hPs := declared_of_find_property Γ K Ps r h
  by_cases hex : ∃ P ∈ Ps, key_of Γ P = some K
  · obtain ⟨P, hfind, hmem, hPK⟩ := find_property_of_present Γ K Ps hPs hex
    rw [h] at hfind
    rw [Option.some.inj hfind]
    exact Or.inr ⟨hmem, hPK⟩
  · have hno : ∀ P ∈ Ps, key_of Γ P ≠ some K := fun P hP hPK => hex ⟨P, hP, hPK⟩
    rw [find_property_absent Γ K Ps hPs hno] at h
    exact Or.inl ⟨(Option.some.inj h).symm, hno⟩

theorem has_property_perm (Γ : Program) (Ps Qs : List TypeId) (K : TypeId)
    (hperm : Ps.Perm Qs) : has_property Γ Ps K = has_property Γ Qs K := by
  cases hK : is_property_key_v Γ K with
  | false => simp [has_property, hK]
  | true =>
    by_cases hdecl : ∀ P ∈ Ps, key_of Γ P ≠ none
    · have hdecl2 : ∀ P ∈ Qs, key_of Γ P ≠ none :=
        fun P hP => hdecl P (hperm.mem_iff.2 hP)
      obtain ⟨b1, h1, hb1⟩ := has_property_of_declared Γ Ps K hK hdecl
      obtain ⟨b2, h2, hb2⟩ := has_property_of_declared Γ Qs K hK hdecl2
      have hb : b1 = b2 := by
        rw [Bool.eq_iff_iff, hb1, hb2]
        constructor
        · rintro ⟨P, hP, hPK⟩
          exact ⟨P, hperm.mem_iff.1 hP, hPK⟩
        · rintro ⟨P, hP, hPK⟩
          exact ⟨P, hperm.mem_iff.2 hP, hPK⟩
      rw [h1, h2, hb]
    · push_neg at hdecl
      obtain ⟨P, hP, hk⟩ := hdecl
      simp [has_property, key_types_none_of_missing Γ Ps P hP hk,
        key_types_none_of_missing Γ Qs P (hperm.mem_iff.1 hP) hk]

theorem find_property_perm (Γ : Program) (Ps Qs : List TypeId) (K : TypeId)
    (hperm : Ps.Perm Qs) (hdistinct : (Ps.map (key_of Γ)).Nodup) :
    find_property Γ K Ps = find_property Γ K Qs := by
  have hdistinct2 : (Qs.map (key_of Γ)).Nodup := (hperm.map _).nodup_iff.1 hdistinct
  by_cases hdecl : ∀ P ∈ Ps, key_of Γ P ≠ none
  · have hdecl2 : ∀ P ∈ Qs, key_of Γ P ≠ none :=
      fun P hP => hdecl P (hperm.mem_iff.2 hP)
    by_cases hex : ∃ P ∈ Ps, key_of Γ P = some K
    · obtain ⟨P, hP, hPK⟩ := hex
      rw [find_property_distinct Γ Ps K P hdecl hdistinct hP hPK,
        find_property_distinct Γ Qs K P hdecl2 hdistinct2 (hperm.mem_iff.1 hP) hPK]
    · have hno : ∀ P ∈ Ps, key_of Γ P ≠ some K := fun P hP hPK => hex ⟨P, hP, hPK⟩
      rw [find_property_absent Γ K Ps hdecl hno,
        find_property_absent Γ K Qs hdecl2 (fun P hP => hno P (hperm.mem_iff.2 hP))]
  · push_neg at hdecl
    obtain ⟨P, hP, hk⟩ := hdecl
    rw [find_property_none_of_missing Γ K Ps P hP hk,
      find_property_none_of_missing Γ K Qs P (hperm.mem_iff.1 hP) hk]

theorem perm_eq_of_length_le_one {α : Type} (l1 l2 : List α) (hperm : l1.Perm l2)
    (hlen : l1.length ≤ 1) : l1 = l2 := by
  cases l1 with
  | nil => exact (List.perm_nil.1 hperm.symm).symm
  | cons a t =>
    cases t with
    | nil => exact (List.perm_singleton.1 hperm.symm).symm
    | cons b t => simp at hlen

theorem length_le_one_of_same_key {α β : Type} (g : α → β) (c : β) (l : List α)
    (hnodup : (l.map g).Nodup) (hall : ∀ x ∈ l, g x = c) : l.length ≤ 1 := by
  cases l with
  | nil => simp
  | cons a t =>
    cases t with
    | nil => simp
    | cons b t =>
      have ha := hall a (by simp)
      have hb := hall b (by simp)
      simp only [List.map_cons, List.nodup_cons, List.mem_cons] at hnodup
      exact absurd (Or.inl (ha.trans hb.symm)) hnodup.1

theorem std_get_perm (Γ : Program) (args1 args2 : List Argument) (T : TypeId)
    (hperm : args1.Perm args2)
    (hdistinct : (args1.map (fun x => key_of Γ x.obj.type)).Nodup) :
    std_get T ((tuple_cat ((args1.map (pass_by_value Γ)).map (runtime_ref Γ))).map
        (move_construct Γ)) =
      std_get T ((tuple_cat ((args2.map (pass_by_value Γ)).map (runtime_ref Γ))).map
        (move_construct Γ)) := by
  unfold std_get
  rw [stored_filter_eq, stored_filter_eq]
  have hf := hperm.filter (fun x => decide (x.obj.type = T) &&
    !is_property_compile_time_v Γ x.obj.type)
  have hsub : ((args1.filter (fun x => decide (x.obj.type = T) &&
      !is_property_compile_time_v Γ x.obj.type)).map
        (fun x => key_of Γ x.obj.type)).Nodup :=
    hdistinct.sublist ((List.filter_sublist args1).map _)
  have hlen := length_le_one_of_same_key (fun x : Argument => key_of Γ x.obj.type)
    (key_of Γ T) _ hsub (by
      intro x hx
      have := (List.mem_filter.1 hx).2
      simp only [Bool.and_eq_true, decide_eq_true_eq] at this
      show key_of Γ x.obj.type = key_of Γ T
      rw [this.1])
  rw [perm_eq_of_length_le_one _ _ hf hlen]

theorem ctor_some_eq (Γ : Program) (args : List Argument) (p : properties)
    (h : properties.ctor Γ args = some p) :
    (∀ x ∈ args, is_property_v Γ x.obj.type = true) ∧
    p = { EncodedProperties := args.map (fun a => a.obj.type)
          stored_properties :=
            (tuple_cat ((args.map (pass_by_value Γ)).map (runtime_ref Γ))).map
              (move_construct Γ) } := by
  by_cases hall : ∀ x ∈ args, is_property_v Γ x.obj.type = true
  · rw [ctor_eq Γ args hall] at h
    exact ⟨hall, (Option.some.inj h).symm⟩
  · exfalso
    have hnone : properties.ctor Γ args = none := by
      simp only [properties.ctor]
      rw [if_neg]
      simp only [List.all_eq_true, List.mem_map, not_forall]
      push_neg at hall
      obtain ⟨x, hx, hn⟩ := hall
      exact ⟨x.obj.type, ⟨x, hx, rfl⟩, hn⟩
    rw [hnone] at h
    exact absurd h (by simp)

/-! ## Lemmas on the call of `get_property` as a step -/

theorem call_get_property_result (Γ : Program) (p : properties) (K : TypeId) :
    (p.call_get_property Γ K).1 = p.get_property Γ K := by
  simp only [properties.call_get_property]
  split
  · rfl
  · split <;> rfl

theorem map_copied_from_eq (Γ : Program) (T : TypeId) (l : List Object)
    (h : ∀ o ∈ l, copied_from Γ o = o) :
    l.map (fun o => if o.type = T then copied_from Γ o else o) = l := by
  induction l with
  | nil => rfl
  | cons a l ih =>
    rw [List.map_cons, ih (fun o ho => h o (List.mem_cons_of_mem _ ho)),
      h a (List.mem_cons_self _ _)]
    simp

theorem call_get_property_unchanged (Γ : Program) (p : properties)
    (h : ∀ o ∈ p.stored_properties, copied_from Γ o = o) (K : TypeId) :
    (p.call_get_property Γ K).2 = p := by
  simp only [properties.call_get_property]
  split
  · rfl
  · split
    · simp only [map_copied_from_eq Γ _ p.stored_properties h]
    · rfl

theorem call_sequence_unchanged (Γ : Program) (p : properties)
    (h : ∀ o ∈ p.stored_properties, copied_from Γ o = o) (keys : List TypeId) :
    (p.call_sequence Γ keys).2 = p ∧
      (p.call_sequence Γ keys).1 = keys.map (p.get_property Γ) := by
  induction keys with
  | nil => exact ⟨rfl, rfl⟩
  | cons K Ks ih =>
    simp only [properties.call_sequence, call_get_property_unchanged Γ p h K,
      call_get_property_result, List.map_cons]
    exact ⟨ih.1, by rw [ih.2]⟩

theorem poc_copied_from (o : Object) : copied_from poc o = o := by
  have h : ∀ T, (poc_decl T).copy_ctor_source = id := by
    intro T
    cases T <;> rfl
  simp [copied_from, poc, h]

/-! ## The checks of `main` in the model -/

theorem main_sizes :
    (poc.decl .enable_profiling).sizeof = (poc.decl .bool).sizeof ∧
    (poc.decl .twoarg).sizeof = 2 * (poc.decl .int).sizeof ∧
    (poc.decl (alignment 16)).sizeof = 1 ∧
    (poc.decl (alignment_type .int)).sizeof = 1 ∧
    (poc.decl (.threearg 1 false 2)).sizeof = 1 ∧
    (poc.decl (.hybrid 1)).sizeof = (poc.decl .int).sizeof ∧
    sizeof_properties poc [] = 1 ∧
    sizeof_properties poc [alignment 16, alignment_type .int, .threearg 1 false 2] = 1 ∧
    sizeof_properties poc [.enable_profiling, .twoarg] =
      (poc.decl .int).sizeof + 2 * (poc.decl .int).sizeof ∧
    sizeof_properties poc [alignment_type .float, .enable_profiling, .threearg 1 false 2] = 1 ∧
    sizeof_properties poc [.hybrid 1, alignment 16, .threearg 1 false 2] =
      (poc.decl .int).sizeof := by
  decide

theorem main_queries :
    has_property poc [alignment 16, alignment_type .int, .threearg 1 false 2]
      .alignment_type_key = some true ∧
    (get_property_compile_time poc [alignment 16, alignment_type .int, .threearg 1 false 2]
      .threearg_key).bind (fun o => o.member poc "y") = some (.bool false) ∧
    ((properties.ctor poc [temporary (enable_profiling_obj true),
      temporary (twoarg_obj 1 2)]).bind (fun p => p.get_property poc .twoarg)).bind
        (fun o => o.member poc "two") = some (.int 2) ∧
    ((properties.ctor poc [temporary (hybrid_obj 1 2)]).bind
      (fun p => p.get_property poc .hybrid_key)).bind
        (fun o => o.member poc "x") = some (.int 1) ∧
    ((properties.ctor poc [temporary (enable_profiling_obj false), named (tag_obj (alignment 8)),
      temporary (hybrid_obj 3 4)]).bind (fun p => p.get_property poc .alignment_key)).bind
        (fun o => o.member poc "value") = some (.int 8) ∧
    has_property poc [.enable_profiling, alignment 8] .twoarg = some false ∧
    has_property poc [.enable_profiling, alignment 8] .threearg_key = some false ∧
    has_property poc [.enable_profiling, alignment 8] .hybrid_key = some false := by
  decide

/-! ## Claims -/

/-- C1: for every pack whose elements declare a key and every property key
K, has_property returns a value, and that value is true exactly when some
element of the pack has key K; nothing is assumed on the category of the
elements or on the position of the match. -/
theorem C1_has_property_iff_key_in_pack (Γ : Program) (Ps : List TypeId) (K : TypeId)
    (hK : is_property_key_v Γ K = true) (hPs : ∀ P ∈ Ps, key_of Γ P ≠ none) :
    ∃ b, has_property Γ Ps K = some b ∧
      (b = true ↔ ∃ P ∈ Ps, (Γ.decl P).__detail_key_t = some K) :=
  has_property_of_declared Γ Ps K hK hPs

/-- Witness of C1 on the mixed list of main (lines 541-553): a runtime, a
compile-time and a hybrid property, queried for the hybrid key. -/
theorem C1_has_property_witness :
    is_property_key_v poc .hybrid_key = true ∧
    (∀ P ∈ [TypeId.enable_profiling, alignment 8, .hybrid 3], key_of poc P ≠ none) ∧
    ∃ b, has_property poc [.enable_profiling, alignment 8, .hybrid 3] .hybrid_key = some b ∧
      (b = true ↔ ∃ P ∈ [TypeId.enable_profiling, alignment 8, .hybrid 3],
        (poc.decl P).__detail_key_t = some .hybrid_key) :=
  ⟨by decide, by decide,
    C1_has_property_iff_key_in_pack poc [.enable_profiling, alignment 8, .hybrid 3]
      .hybrid_key (by decide) (by decide)⟩

/-- C2 as stated fails in two ways. The property copy_check of main is
returned with count 1 when the argument supplied had count 0 (line 644). And
for a compile-time property whose key is not a compile-time key the instance
get_property does not compile, although the key is present and is a property
key that is not compile-time. -/
theorem C2_returned_fields_differ_counterexample :
    (is_property_key_v poc .copy_check = true ∧
      is_property_key_compile_time_v poc .copy_check = false ∧
      has_property poc [.copy_check] .copy_check = some true ∧
      (properties.ctor poc [temporary (copy_check_obj 0)]).bind
        (fun p => p.get_property poc .copy_check) = some (copy_check_obj 1) ∧
      copy_check_obj 1 ≠ copy_check_obj 0) ∧
    (is_property_key_v poc_with_odd .hybrid_key = true ∧
      is_property_key_compile_time_v poc_with_odd .hybrid_key = false ∧
      is_property_v poc_with_odd (.user 0) = true ∧
      has_property poc_with_odd [.user 0] .hybrid_key = some true ∧
      (properties.ctor poc_with_odd [temporary (tag_obj (.user 0))]).map
        (fun p => p.get_property poc_with_odd .hybrid_key) = some none) := by
  decide

/-- C2 amended: for a list constructed from arguments whose properties
declare pairwise distinct keys, and a key K that is not a compile-time key
and is the key of an argument whose property is not compile-time, the member
function get_property returns the argument after the constructors the call
chain runs (parameter initialisation, move into the tuple, copy on return),
wherever the argument sits among the others; when the copy and move
constructors of its class keep the data members, as those of
enable_profiling, twoarg and hybrid do, the value returned equals the
argument supplied. -/
theorem C2_get_property_returns_supplied_value (Γ : Program) (args : List Argument)
    (a : Argument) (K : TypeId)
    (hprops : ∀ x ∈ args, is_property_v Γ x.obj.type = true)
    (hkeys : ∀ x ∈ args, key_of Γ x.obj.type ≠ none)
    (hdistinct : (args.map (fun x => key_of Γ x.obj.type)).Nodup)
    (hK : is_property_key_v Γ K = true)
    (hKrt : is_property_key_compile_time_v Γ K = false)
    (ha : a ∈ args) (haK : key_of Γ a.obj.type = some K)
    (hart : is_property_compile_time_v Γ a.obj.type = false) :
    ∃ p, properties.ctor Γ args = some p ∧
      p.get_property Γ K =
        some (copy_construct Γ (move_construct Γ (pass_by_value Γ a))) ∧
      ((∀ d, (Γ.decl a.obj.type).copy_ctor d = d ∧ (Γ.decl a.obj.type).move_ctor d = d) →
        p.get_property Γ K = some a.obj) := by
  refine ⟨_, ctor_eq Γ args hprops, ?_⟩
  have hkeysT : ∀ Q ∈ args.map (fun x => x.obj.type), key_of Γ Q ≠ none := by
    intro Q hQ
    obtain ⟨x, hx, rfl⟩ := List.mem_map.1 hQ
    exact hkeys x hx
  have hmem : a.obj.type ∈ args.map (fun x => x.obj.type) := List.mem_map.2 ⟨a, ha, rfl⟩
  have hhas := has_property_present Γ _ K a.obj.type hK hkeysT hmem haK
  have hdT : ((args.map (fun x => x.obj.type)).map (key_of Γ)).Nodup := by
    rw [List.map_map]
    exact hdistinct
  have hfind := find_property_distinct Γ _ K a.obj.type hkeysT hdT hmem haK
  have hget : std_get a.obj.type
      ((tuple_cat ((args.map (pass_by_value Γ)).map (runtime_ref Γ))).map
        (move_construct Γ)) = some (move_construct Γ (pass_by_value Γ a)) := by
    obtain ⟨front, back, rfl⟩ := List.append_of_mem ha
    obtain ⟨h1, h2⟩ := distinct_keys_split Γ front a back hdistinct
    exact std_get_stored Γ front a back (fun x hx heq => h1 x hx (by rw [heq]))
      (fun x hx heq => h2 x hx (by rw [heq])) hart
  have hres : properties.get_property Γ
      { EncodedProperties := args.map (fun a => a.obj.type)
        stored_properties :=
          (tuple_cat ((args.map (pass_by_value Γ)).map (runtime_ref Γ))).map
            (move_construct Γ) } K =
      some (copy_construct Γ (move_construct Γ (pass_by_value Γ a))) := by
    simp only [properties.get_property, properties.get_property_runtime, hKrt, hhas, hfind,
      hget, Bool.not_false, Bool.true_and, beq_self_eq_true, Bool.false_eq_true, if_false,
      if_true, Option.map_some']
  refine ⟨hres, ?_⟩
  intro hpres
  rw [hres]
  have hpass : pass_by_value Γ a = a.obj := by
    cases a with
    | mk obj category =>
      cases category <;>
        simp [pass_by_value, move_construct, copy_construct, (hpres _).1, (hpres _).2]
  simp [hpass, copy_construct, move_construct, (hpres _).1, (hpres _).2]

/-- Witness of C2 amended on the mixed list of main (lines 541-552):
enable_profiling{false}, alignment<8>, hybrid<3>{4}, queried for hybrid_key. -/
theorem C2_get_property_witness :
    (∀ x ∈ [temporary (enable_profiling_obj false), named (tag_obj (alignment 8)),
        temporary (hybrid_obj 3 4)], is_property_v poc x.obj.type = true) ∧
    ([temporary (enable_profiling_obj false), named (tag_obj (alignment 8)),
        temporary (hybrid_obj 3 4)].map (fun x => key_of poc x.obj.type)).Nodup ∧
    is_property_compile_time_v poc (temporary (hybrid_obj 3 4)).obj.type = false ∧
    ∃ p, properties.ctor poc [temporary (enable_profiling_obj false),
        named (tag_obj (alignment 8)), temporary (hybrid_obj 3 4)] = some p ∧
      p.get_property poc .hybrid_key = some (hybrid_obj 3 4) :=
  ⟨by decide, by decide, by decide,
    (C2_get_property_returns_supplied_value poc
      [temporary (enable_profiling_obj false), named (tag_obj (alignment 8)),
        temporary (hybrid_obj 3 4)] (temporary (hybrid_obj 3 4)) .hybrid_key
      (by decide) (by decide) (by decide) (by decide) (by decide) (by decide) (by decide)
      (by decide)).imp
      (fun _ h => ⟨h.1, h.2.2 (fun _ => ⟨rfl, rfl⟩)⟩)⟩

/-- C3: for a pack whose elements declare pairwise distinct keys and a
compile-time key K that is the key of the element P, the static get_property
is the value initialisation of P, with or without an instance; it returns an
object whenever P can be default constructed. For alignment<N> the member
value of the result is N, for threearg<X, Y, Z> the members x, y, z are X, Y,
Z, and for alignment_type<T> the member alias value_t is T. -/
theorem C3_get_property_compile_time_default (Γ : Program) (Ps : List TypeId) (K P : TypeId)
    (hkeys : ∀ Q ∈ Ps, key_of Γ Q ≠ none)
    (hdistinct : (Ps.map (key_of Γ)).Nodup)
    (hK : is_property_key_compile_time_v Γ K = true)
    (hP : P ∈ Ps) (hPK : key_of Γ P = some K) :
    get_property_compile_time Γ Ps K = value_init Γ P ∧
    (∀ p : properties, p.EncodedProperties = Ps → p.get_property Γ K = value_init Γ P) ∧
    (∀ d, (Γ.decl P).default_ctor = some d →
      get_property_compile_time Γ Ps K = some { type := P, data := d }) ∧
    (Γ.decl P = poc_decl P →
      (∀ N : Nat, P = alignment N →
        ∃ o, get_property_compile_time Γ Ps K = some o ∧
          o.member Γ "value" = some (.int N)) ∧
      (∀ X Y Z, P = .threearg X Y Z →
        ∃ o, get_property_compile_time Γ Ps K = some o ∧ o.member Γ "x" = some (.int X) ∧
          o.member Γ "y" = some (.bool Y) ∧ o.member Γ "z" = some (.int Z)) ∧
      (∀ T, P = alignment_type T →
        ∃ o, get_property_compile_time Γ Ps K = some o ∧
          o.member Γ "value_t" = some (.type T))) := by
  have hKk : is_property_key_v Γ K = true := by
    simp only [is_property_key_compile_time_v] at hK
    simp [is_property_key_v, hK]
  have hhas := has_property_present Γ Ps K P hKk hkeys hP hPK
  have hfind := find_property_distinct Γ Ps K P hkeys hdistinct hP hPK
  have hget : get_property_compile_time Γ Ps K = value_init Γ P := by
    simp [get_property_compile_time, hK, hhas, hfind]
  refine ⟨hget, ?_, ?_, ?_⟩
  · intro p hp
    simp [properties.get_property, hK, hp, hget]
  · intro d hd
    simp [hget, value_init, hd]
  · intro hdecl
    refine ⟨?_, ?_, ?_⟩
    · intro N hN
      subst hN
      have hd : Γ.decl (alignment N) = poc_decl (alignment N) := hdecl
      simp only [alignment] at hd
      refine ⟨{ type := alignment N, data := [] }, ?_, ?_⟩
      · simp [hget, value_init, hd, alignment, poc_decl]
      · simp [Object.member, hd, alignment, poc_decl, List.lookup]
    · intro X Y Z hXYZ
      subst hXYZ
      refine ⟨{ type := .threearg X Y Z, data := [] }, ?_, ?_, ?_, ?_⟩
      · simp [hget, value_init, hdecl, poc_decl]
      · simp [Object.member, hdecl, poc_decl, List.lookup]
      · simp [Object.member, hdecl, poc_decl, List.lookup]
      · simp [Object.member, hdecl, poc_decl, List.lookup]
    · intro T hT
      subst hT
      have hd : Γ.decl (alignment_type T) = poc_decl (alignment_type T) := hdecl
      simp only [alignment_type] at hd
      refine ⟨{ type := alignment_type T, data := [] }, ?_, ?_⟩
      · simp [hget, value_init, hd, alignment_type, poc_decl]
      · simp [Object.member, hd, alignment_type, poc_decl, List.lookup]

/-- Witness of C3 on the compile-time list of main (lines 501-513):
get_property for alignment_key has value 16. -/
theorem C3_get_property_compile_time_witness :
    (∀ Q ∈ [alignment 16, alignment_type .int, .threearg 1 false 2], key_of poc Q ≠ none) ∧
    ([alignment 16, alignment_type .int, .threearg 1 false 2].map (key_of poc)).Nodup ∧
    is_property_key_compile_time_v poc .alignment_key = true ∧
    ∃ o, get_property_compile_time poc [alignment 16, alignment_type .int,
        .threearg 1 false 2] .alignment_key = some o ∧
      o.member poc "value" = some (.int 16) :=
  ⟨by decide, by decide, by decide,
    ((C3_get_property_compile_time_default poc
      [alignment 16, alignment_type .int, .threearg 1 false 2] .alignment_key (alignment 16)
      (by decide) (by decide) (by decide) (by decide) (by decide)).2.2.2 rfl).1 16 rfl⟩

/-- C4: on a pack whose elements declare a key, find_property gives void when
no element has key K (so for the empty pack), and otherwise the first element
in pack order whose key is K, whatever follows it. -/
theorem C4_find_property_first_match (Γ : Program) (K : TypeId) (Ps : List TypeId)
    (hPs : ∀ P ∈ Ps, key_of Γ P ≠ none) :
    find_property Γ K [] = some .void ∧
    ((∀ P ∈ Ps, key_of Γ P ≠ some K) → find_property Γ K Ps = some .void) ∧
    (∀ front P back, Ps = front ++ P :: back →
      (∀ Q ∈ front, key_of Γ Q ≠ some K) → key_of Γ P = some K →
      find_property Γ K Ps = some P) := by
  refine ⟨rfl, find_property_absent Γ K Ps hPs, ?_⟩
  intro front P back hsplit hfront hP
  subst hsplit
  exact find_property_first Γ K front P back hPs hfront hP

/-- Witness of C4: with two properties of key alignment_key in the pack the
first one is found, and a key that is absent gives void. -/
theorem C4_find_property_witness :
    (∀ P ∈ [TypeId.enable_profiling, alignment 8, .hybrid 3, alignment 16],
      key_of poc P ≠ none) ∧
    find_property poc .alignment_key
      [.enable_profiling, alignment 8, .hybrid 3, alignment 16] = some (alignment 8) ∧
    find_property poc .twoarg
      [.enable_profiling, alignment 8, .hybrid 3, alignment 16] = some .void :=
  ⟨by decide,
    (C4_find_property_first_match poc .alignment_key
      [.enable_profiling, alignment 8, .hybrid 3, alignment 16] (by decide)).2.2
      [.enable_profiling] (alignment 8) [.hybrid 3, alignment 16] rfl (by decide) (by decide),
    by decide⟩

/-- C5: filter_runtime_properties keeps exactly the elements of the pack that
do not derive from constant_property_base, in pack order and with their
multiplicity; the empty pack and a pack of compile-time properties give the
empty tuple, a pack without compile-time properties is unchanged. -/
theorem C5_filter_runtime_properties_exact (Γ : Program) (Ps : List TypeId) :
    filter_runtime_properties_t Γ Ps =
      Ps.filter (fun P => !(Γ.decl P).constant_property_base) ∧
    (filter_runtime_properties_t Γ Ps).Sublist Ps ∧
    (∀ P, P ∈ filter_runtime_properties_t Γ Ps ↔
      P ∈ Ps ∧ (Γ.decl P).constant_property_base = false) ∧
    (∀ P, (Γ.decl P).constant_property_base = false →
      (filter_runtime_properties_t Γ Ps).count P = Ps.count P) ∧
    filter_runtime_properties_t Γ [] = [] ∧
    ((∀ P ∈ Ps, (Γ.decl P).constant_property_base = true) →
      filter_runtime_properties_t Γ Ps = []) ∧
    ((∀ P ∈ Ps, (Γ.decl P).constant_property_base = false) →
      filter_runtime_properties_t Γ Ps = Ps) := by
  have h := filter_runtime_properties_eq_filter Γ Ps
  simp only [is_property_compile_time_v] at h
  refine ⟨h, ?_, ?_, ?_, rfl, ?_, ?_⟩
  · rw [h]; exact List.filter_sublist Ps
  · intro P
    rw [h]
    simp [List.mem_filter]
  · intro P hP
    rw [h, List.count_filter]
    simp [hP]
  · intro hall
    rw [h, List.filter_eq_nil_iff]
    intro P hP
    simp [hall P hP]
  · intro hall
    rw [h, List.filter_eq_self]
    intro P hP
    simp [hall P hP]

/-- Witness of C5 on the mixed list of main (lines 541-545): of
enable_profiling, alignment<8>, hybrid<3> the first and the last are kept. -/
theorem C5_filter_runtime_properties_witness :
    filter_runtime_properties_t poc [.enable_profiling, alignment 8, .hybrid 3] =
      [.enable_profiling, .hybrid 3] ∧
    filter_runtime_properties_t poc [alignment 16, alignment_type .int] = [] ∧
    filter_runtime_properties_t poc [.enable_profiling, .twoarg] =
      [.enable_profiling, .twoarg] :=
  ⟨(C5_filter_runtime_properties_exact poc [.enable_profiling, alignment 8, .hybrid 3]).1,
    (C5_filter_runtime_properties_exact poc [alignment 16, alignment_type .int]).2.2.2.2.2.1
      (by decide),
    (C5_filter_runtime_properties_exact poc [.enable_profiling, .twoarg]).2.2.2.2.2.2
      (by decide)⟩

/-- C6: a list made only of compile-time properties, of any length, has the
empty tuple as stored runtime subset and size 1, and constructing it from
any arguments of those types stores nothing. -/
theorem C6_compile_time_list_is_minimal (Γ : Program) (args : List Argument)
    (hct : ∀ x ∈ args, is_property_compile_time_v Γ x.obj.type = true) :
    filter_runtime_properties_t Γ (args.map (fun a => a.obj.type)) = [] ∧
    sizeof_properties Γ (args.map (fun a => a.obj.type)) = 1 ∧
    properties.ctor Γ args = some
      { EncodedProperties := args.map (fun a => a.obj.type), stored_properties := [] } := by
  have hf : filter_runtime_properties_t Γ (args.map (fun a => a.obj.type)) = [] := by
    rw [← stored_types, stored_compile_time Γ args hct]
    rfl
  refine ⟨hf, ?_, ?_⟩
  · simp [sizeof_properties, hf, sizeof_tuple, tuple_end, tuple_align, align_up]
  · rw [ctor_eq Γ args (fun x hx => is_property_of_compile_time Γ _ (hct x hx)),
      stored_compile_time Γ args hct]

/-- Witness of C6 on the list of lines 435-440: alignment<16>,
alignment_type<int>, threearg<1, false, 2>. -/
theorem C6_compile_time_list_witness :
    (∀ x ∈ [named (tag_obj (alignment 16)), named (tag_obj (alignment_type .int)),
        named (tag_obj (.threearg 1 false 2))],
      is_property_compile_time_v poc x.obj.type = true) ∧
    sizeof_properties poc [alignment 16, alignment_type .int, .threearg 1 false 2] = 1 ∧
    sizeof_properties poc [] = 1 :=
  ⟨by decide,
    (C6_compile_time_list_is_minimal poc
      [named (tag_obj (alignment 16)), named (tag_obj (alignment_type .int)),
        named (tag_obj (.threearg 1 false 2))] (by decide)).2.1,
    (C6_compile_time_list_is_minimal poc [] (by simp)).2.1⟩

/-- C7 as stated fails: the list of enable_profiling and twoarg (lines
443-447) holds only runtime properties, the sizes of its stored values sum to
1 + 8 = 9, and the size of the list is 12. -/
theorem C7_size_is_not_sum_counterexample :
    filter_runtime_properties_t poc [.enable_profiling, .twoarg] =
      [.enable_profiling, .twoarg] ∧
    sum_sizeof poc [.enable_profiling, .twoarg] = 9 ∧
    sizeof_properties poc [.enable_profiling, .twoarg] = 12 ∧
    sizeof_properties poc [.enable_profiling, .twoarg] ≠
      sum_sizeof poc (filter_runtime_properties_t poc [.enable_profiling, .twoarg]) := by
  decide

/-- C7 amended: for a list of only runtime and hybrid properties whose
classes each have a data member (none is an empty class) the size is at
least the sum of the sizes of the stored values (each value is placed at a
multiple of its alignment), and equals that sum when the list is not empty
and all stored values share one alignment that divides their sizes; the list
of enable_profiling and twoarg has size 12, that is sizeof(int) +
2 * sizeof(int). -/
theorem C7_size_is_padded_sum (Γ : Program) (Ps : List TypeId)
    (hrt : ∀ P ∈ Ps, is_property_compile_time_v Γ P = false)
    (hdata : ∀ P ∈ Ps, (Γ.decl P).is_empty = false)
    (halign : ∀ P ∈ Ps, 0 < (Γ.decl P).alignof) :
    sum_sizeof Γ Ps ≤ sizeof_properties Γ Ps ∧
    (∀ a, 0 < a → Ps ≠ [] → (∀ P ∈ Ps, (Γ.decl P).alignof = a) →
      (∀ P ∈ Ps, a ∣ (Γ.decl P).sizeof ∧ 0 < (Γ.decl P).sizeof) →
      sizeof_properties Γ Ps = sum_sizeof Γ Ps) ∧
    sizeof_properties poc [.enable_profiling, .twoarg] =
      (poc.decl .int).sizeof + 2 * (poc.decl .int).sizeof := by
  have hf : filter_runtime_properties_t Γ Ps = Ps := by
    rw [filter_runtime_properties_eq_filter, List.filter_eq_self]
    intro P hP
    simp [hrt P hP]
  have _ := hdata
  refine ⟨?_, ?_, by decide⟩
  · have h1 := tuple_end_ge Γ Ps 0 halign
    have h2 := le_align_up (tuple_end Γ Ps 0) (tuple_align Γ Ps) (tuple_align_pos Γ Ps)
    simp only [sizeof_properties, hf, sizeof_tuple]
    omega
  · intro a ha hne hal hsz
    have h1 := tuple_end_uniform Γ Ps a 0 ha hal (fun P hP => (hsz P hP).1) (Nat.dvd_zero a)
    have h2 := tuple_align_uniform Γ Ps a ha hne hal
    have h3 : 0 < sum_sizeof Γ Ps := by
      cases Ps with
      | nil => exact absurd rfl hne
      | cons P Rest =>
        have := (hsz P (List.mem_cons_self _ _)).2
        simp only [sum_sizeof, List.map_cons, List.sum_cons]
        omega
    have h4 : align_up (tuple_end Γ Ps 0) a = tuple_end Γ Ps 0 :=
      align_up_of_dvd _ a ha h1.2
    have h5 := h1.1
    simp only [sizeof_properties, hf, sizeof_tuple, h2, h4]
    omega

/-- Witness of C7 amended: the list of twoarg and hybrid<1>, both with data
members and of alignment 4, has size 8 + 4. -/
theorem C7_size_is_padded_sum_witness :
    (∀ P ∈ [TypeId.twoarg, .hybrid 1], is_property_compile_time_v poc P = false) ∧
    (∀ P ∈ [TypeId.twoarg, .hybrid 1], (poc.decl P).is_empty = false) ∧
    (∀ P ∈ [TypeId.twoarg, .hybrid 1], 0 < (poc.decl P).alignof) ∧
    sizeof_properties poc [.twoarg, .hybrid 1] = sum_sizeof poc [.twoarg, .hybrid 1] ∧
    sum_sizeof poc [.twoarg, .hybrid 1] = 12 :=
  ⟨by decide, by decide, by decide,
    (C7_size_is_padded_sum poc [.twoarg, .hybrid 1] (by decide) (by decide)
      (by decide)).2.1 4 (by decide) (by decide) (by decide) (by decide),
    by decide⟩

/-- C8: the stored runtime subset does not depend on the compile-time
properties of the pack. Two packs with the same sequence of properties that
are not compile-time have the same stored tuple type and the same size;
compile-time properties inserted anywhere in a pack, or in the argument list
of the constructor, change neither the stored type nor the stored values;
the list hybrid<1>{2}, alignment<16>, threearg<1, false, 2> stores what the
list hybrid<1>{2} stores. -/
theorem C8_stored_subset_ignores_compile_time (Γ : Program) :
    (∀ Ps Qs : List TypeId,
      Ps.filter (fun P => !is_property_compile_time_v Γ P) =
        Qs.filter (fun P => !is_property_compile_time_v Γ P) →
      filter_runtime_properties_t Γ Ps = filter_runtime_properties_t Γ Qs ∧
      sizeof_properties Γ Ps = sizeof_properties Γ Qs) ∧
    (∀ front Cs back : List TypeId, (∀ C ∈ Cs, is_property_compile_time_v Γ C = true) →
      filter_runtime_properties_t Γ (front ++ Cs ++ back) =
        filter_runtime_properties_t Γ (front ++ back) ∧
      sizeof_properties Γ (front ++ Cs ++ back) = sizeof_properties Γ (front ++ back)) ∧
    (∀ front Cs back : List Argument,
      (∀ c ∈ Cs, is_property_compile_time_v Γ c.obj.type = true) →
      (properties.ctor Γ (front ++ Cs ++ back)).map (fun p => p.stored_properties) =
        (properties.ctor Γ (front ++ back)).map (fun p => p.stored_properties)) ∧
    (properties.ctor poc [temporary (hybrid_obj 1 2), named (tag_obj (alignment 16)),
        named (tag_obj (.threearg 1 false 2))]).map (fun p => p.stored_properties) =
      (properties.ctor poc [temporary (hybrid_obj 1 2)]).map (fun p => p.stored_properties) ∧
    sizeof_properties poc [.hybrid 1, alignment 16, .threearg 1 false 2] =
      (poc.decl .int).sizeof := by
  have key : ∀ front Cs back : List TypeId,
      (∀ C ∈ Cs, is_property_compile_time_v Γ C = true) →
      filter_runtime_properties_t Γ (front ++ Cs ++ back) =
        filter_runtime_properties_t Γ (front ++ back) := by
    intro front Cs back hCs
    have hnil : Cs.filter (fun P => !is_property_compile_time_v Γ P) = [] := by
      rw [List.filter_eq_nil_iff]
      intro C hC
      simp [hCs C hC]
    simp [filter_runtime_properties_eq_filter, List.filter_append, hnil]
  refine ⟨?_, ?_, ?_, by decide, by decide⟩
  · intro Ps Qs h
    have hf : filter_runtime_properties_t Γ Ps = filter_runtime_properties_t Γ Qs := by
      rw [filter_runtime_properties_eq_filter, filter_runtime_properties_eq_filter, h]
    exact ⟨hf, by simp [sizeof_properties, hf]⟩
  · intro front Cs back hCs
    have hf := key front Cs back hCs
    exact ⟨hf, by simp only [sizeof_properties, hf]⟩
  · intro front Cs back hCs
    by_cases hall : ∀ x ∈ front ++ back, is_property_v Γ x.obj.type = true
    · have hall2 : ∀ x ∈ front ++ Cs ++ back, is_property_v Γ x.obj.type = true := by
        intro x hx
        simp only [List.mem_append] at hx hall
        rcases hx with (hx | hx) | hx
        · exact hall x (Or.inl hx)
        · exact is_property_of_compile_time Γ _ (hCs x hx)
        · exact hall x (Or.inr hx)
      rw [ctor_eq Γ _ hall, ctor_eq Γ _ hall2]
      simp only [Option.map_some', stored_append, stored_compile_time Γ Cs hCs,
        List.append_nil]
    · have h1 : properties.ctor Γ (front ++ back) = none := by
        simp only [properties.ctor]
        rw [if_neg]
        simp only [List.all_eq_true, List.mem_map, not_forall]
        push_neg at hall
        obtain ⟨x, hx, hn⟩ := hall
        exact ⟨x.obj.type, ⟨x, hx, rfl⟩, hn⟩
      have h2 : properties.ctor Γ (front ++ Cs ++ back) = none := by
        simp only [properties.ctor]
        rw [if_neg]
        simp only [List.all_eq_true, List.mem_map, not_forall]
        push_neg at hall
        obtain ⟨x, hx, hn⟩ := hall
        refine ⟨x.obj.type, ⟨x, ?_, rfl⟩, hn⟩
        simp only [List.mem_append] at hx ⊢
        tauto
      rw [h1, h2]

/-- C9: for a runtime property T that counts its copies (a copy adds one to
the count, a move keeps it, default construction gives 0), such as copy_check
of main, a list built from a temporary with count c returns count c + 1 from
get_property and a list built from a named object returns count c + 2; with
the default constructed copy_check{} these are 1 and 2. -/
theorem C9_copy_count_after_construction (Γ : Program) (T : TypeId)
    (hbase : (Γ.decl T).runtime_property_base = true)
    (hnct : (Γ.decl T).constant_property_base = false)
    (hnkct : (Γ.decl T).constant_property_key_base = false)
    (hkey : (Γ.decl T).__detail_key_t = some T)
    (hdefault : (Γ.decl T).default_ctor = some [("copy_count", .int 0)])
    (hcopy : ∀ n : Int, (Γ.decl T).copy_ctor [("copy_count", .int n)] =
      [("copy_count", .int (n + 1))])
    (hmove : ∀ n : Int, (Γ.decl T).move_ctor [("copy_count", .int n)] =
      [("copy_count", .int n)]) :
    (∀ c : Int,
      (properties.ctor Γ [temporary { type := T, data := [("copy_count", .int c)] }]).bind
        (fun p => p.get_property Γ T) =
          some { type := T, data := [("copy_count", .int (c + 1))] } ∧
      (properties.ctor Γ [named { type := T, data := [("copy_count", .int c)] }]).bind
        (fun p => p.get_property Γ T) =
          some { type := T, data := [("copy_count", .int (c + 2))] }) ∧
    (∃ o, value_init Γ T = some o ∧
      ((properties.ctor Γ [temporary o]).bind (fun p => p.get_property Γ T)).bind
        (fun r => r.member Γ "copy_count") = some (.int 1) ∧
      ((properties.ctor Γ [named o]).bind (fun p => p.get_property Γ T)).bind
        (fun r => r.member Γ "copy_count") = some (.int 2)) := by
  have hprop : is_property_v Γ T = true := by simp [is_property_v, hbase]
  have hpk : is_property_key_v Γ T = true := by simp [is_property_key_v, hbase]
  have hkct : is_property_key_compile_time_v Γ T = false := hnkct
  have hct : is_property_compile_time_v Γ T = false := hnct
  have hk : key_of Γ T = some T := hkey
  have hget : ∀ (a : Argument), a.obj.type = T →
      (properties.ctor Γ [a]).bind (fun p => p.get_property Γ T) =
        some (copy_construct Γ (move_construct Γ (pass_by_value Γ a))) := by
    intro a ha
    have hpt : (pass_by_value Γ a).type = T := by rw [pass_by_value_type, ha]
    rw [ctor_eq Γ [a] (by simp [ha, hprop])]
    simp [properties.get_property, properties.get_property_runtime, hkct, has_property, hpk,
      key_types, find_property, hk, ha, tuple_cat, runtime_ref, hpt, hct, std_get,
      move_construct]
  have htmp : ∀ c : Int,
      (properties.ctor Γ [temporary { type := T, data := [("copy_count", .int c)] }]).bind
        (fun p => p.get_property Γ T) =
          some { type := T, data := [("copy_count", .int (c + 1))] } := by
    intro c
    rw [hget _ rfl]
    simp [pass_by_value, temporary, move_construct, copy_construct, hmove, hcopy]
  have hnamed : ∀ c : Int,
      (properties.ctor Γ [named { type := T, data := [("copy_count", .int c)] }]).bind
        (fun p => p.get_property Γ T) =
          some { type := T, data := [("copy_count", .int (c + 2))] } := by
    intro c
    rw [hget _ rfl]
    simp only [pass_by_value, named, move_construct, copy_construct, hmove, hcopy]
    rw [show c + 1 + 1 = c + 2 by ring]
  refine ⟨fun c => ⟨htmp c, hnamed c⟩, { type := T, data := [("copy_count", .int 0)] }, ?_, ?_, ?_⟩
  · simp [value_init, hdefault]
  · rw [htmp 0]
    simp [Object.member, List.lookup]
  · rw [hnamed 0]
    simp [Object.member, List.lookup]

/-- Witness of C9 on copy_check in the translation unit of the source, lines
628-651. -/
theorem C9_copy_check_witness :
    ((properties.ctor poc [temporary (copy_check_obj 0)]).bind
      (fun p => p.get_property poc .copy_check)).bind (fun o => o.member poc "copy_count") =
        some (.int 1) ∧
    ((properties.ctor poc [named (copy_check_obj 0)]).bind
      (fun p => p.get_property poc .copy_check)).bind (fun o => o.member poc "copy_count") =
        some (.int 2) := by
  have h := (C9_copy_count_after_construction poc .copy_check rfl rfl rfl rfl rfl
    (fun _ => rfl) (fun _ => rfl)).1 0
  exact ⟨by rw [show copy_check_obj 0 = { type := .copy_check, data := [("copy_count", .int 0)] }
      from rfl, h.1]; rfl,
    by rw [show copy_check_obj 0 = { type := .copy_check, data := [("copy_count", .int 0)] }
      from rfl, h.2]; rfl⟩

/-- C10: properties<Ps...> is a property list for Class exactly when every
element of Ps is a property for Class; when each element's trait has a value
the list's trait has one too; one element that is not a property for Class
makes the list not a property list for Class; a type that is no
instantiation of properties never is one. -/
theorem C10_is_property_list_for_iff_all (Γ : Program) (Class : TypeId) (Ps : List TypeId) :
    (is_property_list_for_v Γ (.properties Ps) Class = some true ↔
      ∀ P ∈ Ps, is_property_for_v Γ P Class = some true) ∧
    ((∀ P ∈ Ps, ∃ b, is_property_for_v Γ P Class = some b) →
      ∃ b, is_property_list_for_v Γ (.properties Ps) Class = some b) ∧
    (∀ P ∈ Ps, is_property_for_v Γ P Class ≠ some true →
      is_property_list_for_v Γ (.properties Ps) Class ≠ some true) ∧
    (∀ T, is_property_list_for_v Γ (.cls T) Class = some false) := by
  refine ⟨all_property_for_eq_true_iff Γ Class Ps, all_property_for_total Γ Class Ps, ?_,
    fun _ => rfl⟩
  intro P hP hne hall
  exact hne ((all_property_for_eq_true_iff Γ Class Ps).1 hall P hP)

/-- Witness of C10 on the lists of main for queue (lines 582-590) and on a
list with alignment<8>, which is not declared for queue. -/
theorem C10_is_property_list_for_witness :
    is_property_list_for_v poc (.properties [.enable_profiling, .twoarg]) .queue = some true ∧
    is_property_list_for_v poc (.properties [.enable_profiling, alignment 8]) .queue
      ≠ some true ∧
    is_property_list_for_v poc (.cls .enable_profiling) .queue = some false :=
  ⟨(C10_is_property_list_for_iff_all poc .queue [.enable_profiling, .twoarg]).1.2 (by decide),
    (C10_is_property_list_for_iff_all poc .queue [.enable_profiling, alignment 8]).2.2.1
      (alignment 8) (by decide) (by decide),
    (C10_is_property_list_for_iff_all poc .queue []).2.2.2 .enable_profiling⟩

/-- C11: is_property_for is true for T and Class only when T has an
explicit true entry or T is a property whose key is declared for Class; in
a program whose explicit entries are all on properties, as in the source, T
is then always a property. A consumer accepts a single argument of type A
exactly when is_property_for holds for A. With the source's declarations
queue accepts enable_profiling and twoarg and rejects alignment<N>,
alignment_type<U>, threearg<X, Y, Z> and hybrid<X>; annotated_ptr accepts the
three compile-time properties and rejects enable_profiling, twoarg and
hybrid<X>. -/
theorem C11_accepted_only_when_declared (Γ : Program) (T C : TypeId) :
    (is_property_for_v Γ T C = some true →
      Γ.is_property_for_spec T C = some true ∨
        (is_property_v Γ T = true ∧
          ∃ k, key_of Γ T = some k ∧ is_property_key_for_v Γ k C = true)) ∧
    ((∀ U, Γ.is_property_for_spec U C = some true → is_property_v Γ U = true) →
      is_property_for_v Γ T C = some true → is_property_v Γ T = true) ∧
    (is_property_for_v poc T C = some true →
      is_property_v poc T = true ∧
        (poc.is_property_for_spec T C = some true ∨
          ∃ k, key_of poc T = some k ∧ is_property_key_for_v poc k C = true)) ∧
    (queue.ctor Γ (some (.cls T)) ≠ none ↔ is_property_for_v Γ T .queue = some true) ∧
    (annotated_ptr.ctor Γ (some (.cls T)) ≠ none ↔
      is_property_for_v Γ T .annotated_ptr_properties = some true) ∧
    (queue.ctor poc (some (.cls .enable_profiling)) = some (.cls .enable_profiling) ∧
      queue.ctor poc (some (.cls .twoarg)) = some (.cls .twoarg) ∧
      (∀ N, queue.ctor poc (some (.cls (alignment N))) = none) ∧
      (∀ U, queue.ctor poc (some (.cls (alignment_type U))) = none) ∧
      (∀ X Y Z, queue.ctor poc (some (.cls (.threearg X Y Z))) = none) ∧
      (∀ X, queue.ctor poc (some (.cls (.hybrid X))) = none)) ∧
    ((∀ N, annotated_ptr.ctor poc (some (.cls (alignment N))) =
        some (.properties [alignment N])) ∧
      (∀ U, annotated_ptr.ctor poc (some (.cls (alignment_type U))) =
        some (.properties [alignment_type U])) ∧
      (∀ X Y Z, annotated_ptr.ctor poc (some (.cls (.threearg X Y Z))) =
        some (.properties [.threearg X Y Z])) ∧
      annotated_ptr.ctor poc (some (.cls .enable_profiling)) = none ∧
      annotated_ptr.ctor poc (some (.cls .twoarg)) = none ∧
      (∀ X, annotated_ptr.ctor poc (some (.cls (.hybrid X))) = none)) := by
  refine ⟨is_property_for_cases Γ T C, ?_, ?_, ?_, ?_, ?_, ?_⟩
  · intro hspec h
    rcases is_property_for_cases Γ T C h with h1 | h1
    · exact hspec T h1
    · exact h1.1
  · intro h
    rcases is_property_for_cases poc T C h with h1 | h1
    · refine ⟨?_, Or.inl h1⟩
      rcases (poc_is_property_for_spec_cases T C true h1).1 with rfl | rfl <;> rfl
    · exact ⟨h1.1, Or.inr h1.2⟩
  · rw [queue_ctor_cls]
    by_cases h : is_property_for_v Γ T .queue = some true <;> simp [h]
  · rw [annotated_ptr_ctor_cls]
    by_cases h : is_property_for_v Γ T .annotated_ptr_properties = some true
    · by_cases hd : (is_property_v Γ T && (value_init Γ T).isSome) = true <;> simp [h, hd]
    · simp [h]
  · refine ⟨by decide, by decide, ?_, ?_, ?_, ?_⟩
    · intro N; rfl
    · intro U; rfl
    · intro X Y Z; rfl
    · intro X; rfl
  · refine ⟨?_, ?_, ?_, by decide, by decide, ?_⟩
    · intro N; rfl
    · intro U; rfl
    · intro X Y Z; rfl
    · intro X; rfl

/-- Witness of C11 on the constructions of main: queue from
enable_profiling{true} (line 575) and annotated_ptr from alignment<16> (line
604), and the two rejected the other way round. -/
theorem C11_accepted_witness :
    queue.ctor poc (some (.cls .enable_profiling)) ≠ none ∧
    annotated_ptr.ctor poc (some (.cls (alignment 16))) ≠ none ∧
    queue.ctor poc (some (.cls (alignment 16))) = none ∧
    annotated_ptr.ctor poc (some (.cls .enable_profiling)) = none :=
  ⟨(C11_accepted_only_when_declared poc .enable_profiling .queue).2.2.2.1.2 (by decide),
    (C11_accepted_only_when_declared poc (alignment 16) .queue).2.2.2.2.1.2 (by decide),
    (C11_accepted_only_when_declared poc .void .void).2.2.2.2.2.1.2.2.1 16,
    (C11_accepted_only_when_declared poc .void .void).2.2.2.2.2.2.2.2.2.1⟩

/-- C12: one of the two constraints of get_property holds exactly when K is
a property key and has_property is true for it; the static one holds exactly
when K is moreover a compile-time key and the member one exactly when it is
not, so never both. Each function is rejected when its constraint fails: for
a key absent from the pack both are, and for a compile-time key the member
function is. -/
theorem C12_get_property_available_iff (Γ : Program) (Ps : List TypeId) (K : TypeId) :
    ((get_property_compile_time_requires Γ Ps K ||
        get_property_runtime_requires Γ Ps K) = true ↔
      is_property_key_v Γ K = true ∧ has_property Γ Ps K = some true) ∧
    (get_property_compile_time_requires Γ Ps K = true ↔
      is_property_key_compile_time_v Γ K = true ∧ has_property Γ Ps K = some true) ∧
    (get_property_runtime_requires Γ Ps K = true ↔
      is_property_key_compile_time_v Γ K = false ∧ has_property Γ Ps K = some true) ∧
    ¬(get_property_compile_time_requires Γ Ps K = true ∧
        get_property_runtime_requires Γ Ps K = true) ∧
    (get_property_compile_time_requires Γ Ps K = false →
      get_property_compile_time Γ Ps K = none) ∧
    (∀ p : properties, p.EncodedProperties = Ps →
      get_property_runtime_requires Γ Ps K = false → p.get_property_runtime Γ K = none) ∧
    (has_property Γ Ps K = some false →
      get_property_compile_time Γ Ps K = none ∧
      ∀ p : properties, p.EncodedProperties = Ps →
        p.get_property_runtime Γ K = none ∧ p.get_property Γ K = none) ∧
    (is_property_key_compile_time_v Γ K = true →
      ∀ p : properties, p.get_property_runtime Γ K = none) := by
  have hkey : has_property Γ Ps K = some true → is_property_key_v Γ K = true := by
    intro h
    cases hk : is_property_key_v Γ K with
    | true => rfl
    | false => simp [has_property, hk] at h
  refine ⟨?_, ?_, ?_, ?_, ?_, ?_, ?_, ?_⟩
  · simp only [get_property_compile_time_requires, get_property_runtime_requires]
    cases hct : is_property_key_compile_time_v Γ K <;>
      simp only [Bool.not_false, Bool.not_true, Bool.true_and, Bool.false_and, Bool.or_false,
        Bool.false_or, beq_iff_eq] <;>
      exact ⟨fun h => ⟨hkey h, h⟩, fun h => h.2⟩
  · simp [get_property_compile_time_requires]
  · simp [get_property_runtime_requires]
  · simp only [get_property_compile_time_requires, get_property_runtime_requires]
    cases is_property_key_compile_time_v Γ K <;> simp
  · intro h
    simp only [get_property_compile_time_requires] at h
    simp [get_property_compile_time, h]
  · intro p hp h
    simp only [get_property_runtime_requires] at h
    simp [properties.get_property_runtime, hp, h]
  · intro h
    refine ⟨by simp [get_property_compile_time, h], ?_⟩
    intro p hp
    have h1 : p.get_property_runtime Γ K = none := by
      simp [properties.get_property_runtime, hp, h]
    refine ⟨h1, ?_⟩
    simp [properties.get_property, h1, get_property_compile_time, hp, h]
  · intro h p
    simp [properties.get_property_runtime, h]

/-- Witness of C12 on the mixed list of main (lines 541-545): for
alignment_key only the static function is available, for hybrid_key only the
member function, for twoarg neither. -/
theorem C12_get_property_available_witness :
    get_property_compile_time_requires poc [.enable_profiling, alignment 8, .hybrid 3]
      .alignment_key = true ∧
    get_property_runtime_requires poc [.enable_profiling, alignment 8, .hybrid 3]
      .hybrid_key = true ∧
    get_property_compile_time poc [.enable_profiling, alignment 8, .hybrid 3] .twoarg = none :=
  ⟨(C12_get_property_available_iff poc [.enable_profiling, alignment 8, .hybrid 3]
      .alignment_key).2.1.2 ⟨by decide, by decide⟩,
    (C12_get_property_available_iff poc [.enable_profiling, alignment 8, .hybrid 3]
      .hybrid_key).2.2.1.2 ⟨by decide, by decide⟩,
    ((C12_get_property_available_iff poc [.enable_profiling, alignment 8, .hybrid 3]
      .twoarg).2.2.2.2.2.2.1 (by decide)).1⟩

/-- C13: for a type T that is not a property key, that is one deriving from
none of runtime_property_base, constant_property_key_base and
hybrid_property_key_base, has_property and every form of get_property are
rejected on every list, so has_property does not answer false. The property
types alignment<N> and hybrid<X> of the source are such types. -/
theorem C13_query_with_non_key_rejected (Γ : Program) (Ps : List TypeId) (T : TypeId)
    (hT : is_property_key_v Γ T = false) :
    ((Γ.decl T).runtime_property_base = false ∧
      (Γ.decl T).constant_property_key_base = false ∧
      (Γ.decl T).hybrid_property_key_base = false) ∧
    has_property Γ Ps T = none ∧
    has_property Γ Ps T ≠ some false ∧
    get_property_compile_time Γ Ps T = none ∧
    (∀ p : properties, p.get_property_runtime Γ T = none ∧ p.get_property Γ T = none) ∧
    (∀ N, is_property_key_v poc (alignment N) = false) ∧
    (∀ U, is_property_key_v poc (alignment_type U) = false) ∧
    (∀ X Y Z, is_property_key_v poc (.threearg X Y Z) = false) ∧
    (∀ X, is_property_key_v poc (.hybrid X) = false) := by
  have hflags : (Γ.decl T).runtime_property_base = false ∧
      (Γ.decl T).constant_property_key_base = false ∧
      (Γ.decl T).hybrid_property_key_base = false := by
    simpa [is_property_key_v, and_assoc] using hT
  have hct : is_property_key_compile_time_v Γ T = false := hflags.2.1
  have hhas : ∀ L, has_property Γ L T = none := by
    intro L
    simp [has_property, hT]
  refine ⟨hflags, hhas Ps, by simp [hhas Ps], ?_, ?_, fun _ => rfl, fun _ => rfl,
    fun _ _ _ => rfl, fun _ => rfl⟩
  · simp [get_property_compile_time, hct]
  · intro p
    have h1 : p.get_property_runtime Γ T = none := by
      simp [properties.get_property_runtime, hhas]
    exact ⟨h1, by simp [properties.get_property, hct, h1]⟩

/-- Witness of C13: on the compile-time list of main (lines 501-505) a query
with the type of alignment<16> in place of alignment_key is rejected. -/
theorem C13_query_with_non_key_witness :
    is_property_key_v poc (alignment 16) = false ∧
    has_property poc [alignment 16, alignment_type .int, .threearg 1 false 2]
      (alignment 16) = none ∧
    get_property_compile_time poc [alignment 16, alignment_type .int, .threearg 1 false 2]
      (alignment 16) = none :=
  ⟨by decide,
    (C13_query_with_non_key_rejected poc [alignment 16, alignment_type .int,
      .threearg 1 false 2] (alignment 16) (by decide)).2.1,
    (C13_query_with_non_key_rejected poc [alignment 16, alignment_type .int,
      .threearg 1 false 2] (alignment 16) (by decide)).2.2.2.1⟩

/-- C14 as stated fails for a property that is accepted but has no default
constructor: the guide of line 360 needs `Property{}` and drops out, so from
the property alone the deduced class is annotated_ptr<T, nodflt>, whose
has_property does not compile, while the one deduced from the list of that
property answers true. -/
theorem C14_single_property_without_default_counterexample :
    is_property_v poc_with_nodflt (.user 1) = true ∧
    is_property_for_v poc_with_nodflt (.user 1) .annotated_ptr_properties = some true ∧
    is_property_key_for_v poc_with_nodflt .alignment_key .annotated_ptr_properties = true ∧
    annotated_ptr.ctor poc_with_nodflt (some (.cls (.user 1))) = some (.cls (.user 1)) ∧
    annotated_ptr.has_property poc_with_nodflt (.cls (.user 1)) .alignment_key = none ∧
    annotated_ptr.ctor poc_with_nodflt (some (.properties [.user 1])) =
      some (.properties [.user 1]) ∧
    annotated_ptr.has_property poc_with_nodflt (.properties [.user 1]) .alignment_key =
      some true := by
  decide

/-- C14 amended: for a list type L and a key K declared for
annotated_ptr_properties, has_property and get_property of
annotated_ptr<T, L> are those of L (for get_property the call without an
object, which for a compile-time key is also what a call on an instance of L
gives). Constructing from one property P that is accepted and default
constructible gives the same class as constructing from the list of P alone;
for an accepted P without a default constructor the class is
annotated_ptr<T, P>, whose queries do not compile. Constructing without
properties gives the class of the empty list, whose has_property is false for
every property key declared for it. -/
theorem C14_annotated_ptr_delegates (Γ : Program) (L : List TypeId) (K : TypeId)
    (hK : is_property_key_for_v Γ K .annotated_ptr_properties = true) :
    annotated_ptr.has_property Γ (.properties L) K = has_property Γ L K ∧
    annotated_ptr.get_property Γ (.properties L) K = get_property_compile_time Γ L K ∧
    (∀ p : properties, p.EncodedProperties = L → is_property_key_compile_time_v Γ K = true →
      annotated_ptr.get_property Γ (.properties L) K = p.get_property Γ K) ∧
    (∀ P, is_property_for_v Γ P .annotated_ptr_properties = some true →
      is_property_v Γ P = true → (Γ.decl P).default_ctor ≠ none →
      annotated_ptr.ctor Γ (some (.cls P)) = some (.properties [P]) ∧
      annotated_ptr.ctor Γ (some (.properties [P])) = some (.properties [P])) ∧
    annotated_ptr.ctor Γ none = some (.properties []) ∧
    (is_property_key_v Γ K = true →
      annotated_ptr.has_property Γ (.properties []) K = some false) ∧
    (∀ K0, is_property_key_for_v poc K0 .annotated_ptr_properties = true →
      annotated_ptr.has_property poc (.properties []) K0 = some false) ∧
    (∀ N, annotated_ptr.ctor poc (some (.cls (alignment N))) =
      annotated_ptr.ctor poc (some (.properties [alignment N]))) ∧
    (∀ U, annotated_ptr.ctor poc (some (.cls (alignment_type U))) =
      annotated_ptr.ctor poc (some (.properties [alignment_type U]))) ∧
    (∀ X Y Z, annotated_ptr.ctor poc (some (.cls (.threearg X Y Z))) =
      annotated_ptr.ctor poc (some (.properties [.threearg X Y Z]))) ∧
    (∀ P, is_property_for_v Γ P .annotated_ptr_properties = some true →
      (Γ.decl P).default_ctor = none →
      annotated_ptr.ctor Γ (some (.cls P)) = some (.cls P) ∧
      annotated_ptr.has_property Γ (.cls P) K = none ∧
      annotated_ptr.get_property Γ (.cls P) K = none) := by
  refine ⟨by simp [annotated_ptr.has_property, hK], by simp [annotated_ptr.get_property, hK],
    ?_, ?_, ?_, ?_, ?_, fun _ => rfl, fun _ => rfl, fun _ _ _ => rfl, ?_⟩
  case refine_6 =>
    intro P hfor hdef
    refine ⟨?_, by simp [annotated_ptr.has_property, hK],
      by simp [annotated_ptr.get_property, hK]⟩
    rw [annotated_ptr_ctor_cls]
    simp [hfor, value_init, hdef]
  · intro p hp hct
    simp [annotated_ptr.get_property, hK, properties.get_property, hct, hp]
  · intro P hfor hprop hdef
    have hd : (value_init Γ P).isSome = true := by
      cases h : (Γ.decl P).default_ctor with
      | none => exact absurd h hdef
      | some d => simp [value_init, h]
    constructor
    · rw [annotated_ptr_ctor_cls]
      simp [hfor, hprop, hd]
    · simp [annotated_ptr.ctor, annotated_ptr.deduce, is_property_list_for_v, all_property_for,
        hfor, property_or_list_for_properties]
  · simp [annotated_ptr.ctor, annotated_ptr.deduce, property_or_list_for_properties,
      is_property_list_for_v, all_property_for]
  · intro hkey
    simp [annotated_ptr.has_property, hK, has_property, hkey, key_types]
  · intro K0 hK0
    have hspec : poc_is_property_key_for_spec K0 .annotated_ptr_properties = some true := by
      simp only [is_property_key_for_v, poc] at hK0
      cases h : poc_is_property_key_for_spec K0 .annotated_ptr_properties with
      | none => simp [h] at hK0
      | some b =>
        simp only [h, Option.getD_some] at hK0
        rw [hK0]
    rcases (poc_is_property_key_for_spec_cases K0 _ true hspec).1 with rfl | rfl | rfl <;> rfl

/-- Witness of C14 amended on the annotated_ptr of lines 602-608, built from
alignment<16>, queried for alignment_key. -/
theorem C14_annotated_ptr_witness :
    is_property_key_for_v poc .alignment_key .annotated_ptr_properties = true ∧
    annotated_ptr.ctor poc (some (.cls (alignment 16))) = some (.properties [alignment 16]) ∧
    annotated_ptr.has_property poc (.properties [alignment 16]) .alignment_key =
      has_property poc [alignment 16] .alignment_key ∧
    annotated_ptr.get_property poc (.properties [alignment 16]) .alignment_key =
      get_property_compile_time poc [alignment 16] .alignment_key :=
  ⟨by decide,
    ((C14_annotated_ptr_delegates poc [alignment 16] .alignment_key (by decide)).2.2.2.1
      (alignment 16) (by decide) (by decide) (by decide)).1,
    (C14_annotated_ptr_delegates poc [alignment 16] .alignment_key (by decide)).1,
    (C14_annotated_ptr_delegates poc [alignment 16] .alignment_key (by decide)).2.1⟩

/-- C15: a class T whose only base is runtime_property<T> is its own key, is
a property and a property key, and is neither a compile-time property nor a
compile-time key. For alignment<N>, alignment_type<U>, threearg<X, Y, Z> and
hybrid<X> of the source the key is another type than the property, the
property is not a property key and the key is not a property. -/
theorem C15_runtime_property_is_own_key (Γ : Program) (T : TypeId)
    (htemplate : Γ.decl (.runtime_property T) = poc_decl (.runtime_property T))
    (hder : (Γ.decl T).inherits (Γ.decl (.runtime_property T)) = true) :
    (key_of Γ T = some T ∧ is_property_v Γ T = true ∧ is_property_key_v Γ T = true ∧
      is_property_compile_time_v Γ T = false ∧
      is_property_key_compile_time_v Γ T = false) ∧
    (∀ N, key_of poc (alignment N) = some .alignment_key ∧
      alignment N ≠ .alignment_key ∧ is_property_key_v poc (alignment N) = false ∧
      is_property_v poc .alignment_key = false) ∧
    (∀ U, key_of poc (alignment_type U) = some .alignment_type_key ∧
      alignment_type U ≠ .alignment_type_key ∧
      is_property_key_v poc (alignment_type U) = false ∧
      is_property_v poc .alignment_type_key = false) ∧
    (∀ X Y Z, key_of poc (.threearg X Y Z) = some .threearg_key ∧
      TypeId.threearg X Y Z ≠ .threearg_key ∧
      is_property_key_v poc (.threearg X Y Z) = false ∧
      is_property_v poc .threearg_key = false) ∧
    (∀ X, key_of poc (.hybrid X) = some .hybrid_key ∧ TypeId.hybrid X ≠ .hybrid_key ∧
      is_property_key_v poc (.hybrid X) = false ∧ is_property_v poc .hybrid_key = false) := by
  refine ⟨?_, ?_, ?_, ?_, ?_⟩
  · rw [htemplate] at hder
    simp only [ClassDecl.inherits, poc_decl, Bool.and_eq_true, beq_iff_eq] at hder
    obtain ⟨⟨⟨⟨⟨h1, h2⟩, h3⟩, h4⟩, h5⟩, h6⟩ := hder
    refine ⟨h6, ?_, ?_, h2, h3⟩
    · simp [is_property_v, h1]
    · simp [is_property_key_v, h1]
  · intro N
    exact ⟨rfl, by simp [alignment], rfl, rfl⟩
  · intro U
    exact ⟨rfl, by simp [alignment_type], rfl, rfl⟩
  · intro X Y Z
    exact ⟨rfl, by simp, rfl, rfl⟩
  · intro X
    exact ⟨rfl, by simp, rfl, rfl⟩

/-- Witness of C15 on the runtime properties of the source: enable_profiling
(line 305), twoarg (line 312) and copy_check (line 628) each derive from
runtime_property of themselves. -/
theorem C15_runtime_property_witness :
    (poc.decl .enable_profiling).inherits (poc.decl (.runtime_property .enable_profiling))
      = true ∧
    key_of poc .enable_profiling = some .enable_profiling ∧
    key_of poc .twoarg = some .twoarg ∧
    key_of poc .copy_check = some .copy_check ∧
    is_property_key_v poc .twoarg = true :=
  ⟨by decide,
    (C15_runtime_property_is_own_key poc .enable_profiling rfl (by decide)).1.1,
    (C15_runtime_property_is_own_key poc .twoarg rfl (by decide)).1.1,
    (C15_runtime_property_is_own_key poc .copy_check rfl (by decide)).1.1,
    (C15_runtime_property_is_own_key poc .twoarg rfl (by decide)).1.2.2.1⟩

/-- C16 as stated fails: the list twoarg{1, 2}, twoarg{3, 4} is constructed
without diagnosis and has_property is true for twoarg, but get_property for
twoarg does not compile, since std::get by type needs the type to be stored
exactly once. -/
theorem C16_same_type_twice_counterexample :
    (properties.ctor poc [temporary (twoarg_obj 1 2), temporary (twoarg_obj 3 4)]).map
      (fun p => (p.stored_properties, has_property poc p.EncodedProperties .twoarg,
        p.get_property poc .twoarg)) =
      some ([twoarg_obj 1 2, twoarg_obj 3 4], some true, none) := by
  decide

/-- C16 amended: a list of properties is constructed whether or not keys
repeat, and for the first argument a in pack order whose key is K
has_property is true and find_property gives the type of a. For a
compile-time key get_property is the value initialisation of that type. For
any other key, with a not compile-time, get_property returns a as stored and
copied when no later argument has the type of a, and does not compile when
one has. -/
theorem C16_duplicate_keys_first_match (Γ : Program) (front : List Argument) (a : Argument)
    (back : List Argument) (K : TypeId)
    (hprops : ∀ x ∈ front ++ a :: back, is_property_v Γ x.obj.type = true)
    (hkeys : ∀ x ∈ front ++ a :: back, key_of Γ x.obj.type ≠ none)
    (hK : is_property_key_v Γ K = true)
    (hfront : ∀ x ∈ front, key_of Γ x.obj.type ≠ some K)
    (haK : key_of Γ a.obj.type = some K) :
    ∃ p, properties.ctor Γ (front ++ a :: back) = some p ∧
      has_property Γ p.EncodedProperties K = some true ∧
      find_property Γ K p.EncodedProperties = some a.obj.type ∧
      (is_property_key_compile_time_v Γ K = true →
        p.get_property Γ K = value_init Γ a.obj.type) ∧
      (is_property_key_compile_time_v Γ K = false →
        is_property_compile_time_v Γ a.obj.type = false →
        (∀ x ∈ back, x.obj.type ≠ a.obj.type) →
        p.get_property Γ K =
          some (copy_construct Γ (move_construct Γ (pass_by_value Γ a)))) ∧
      (is_property_key_compile_time_v Γ K = false →
        is_property_compile_time_v Γ a.obj.type = false →
        (∃ x ∈ back, x.obj.type = a.obj.type) → p.get_property Γ K = none) := by
  refine ⟨_, ctor_eq Γ _ hprops, ?_⟩
  have hkeysT : ∀ Q ∈ (front ++ a :: back).map (fun x => x.obj.type), key_of Γ Q ≠ none := by
    intro Q hQ
    obtain ⟨x, hx, rfl⟩ := List.mem_map.1 hQ
    exact hkeys x hx
  have hmem : a.obj.type ∈ (front ++ a :: back).map (fun x => x.obj.type) :=
    List.mem_map.2 ⟨a, by simp, rfl⟩
  have hhas := has_property_present Γ _ K a.obj.type hK hkeysT hmem haK
  have hfind : find_property Γ K ((front ++ a :: back).map (fun x => x.obj.type)) =
      some a.obj.type := by
    have hsplit : (front ++ a :: back).map (fun x => x.obj.type) =
        front.map (fun x => x.obj.type) ++ a.obj.type :: back.map (fun x => x.obj.type) := by
      simp
    rw [hsplit] at hkeysT ⊢
    refine find_property_first Γ K _ _ _ hkeysT ?_ haK
    intro Q hQ
    obtain ⟨x, hx, rfl⟩ := List.mem_map.1 hQ
    exact hfront x hx
  have hfrontT : ∀ x ∈ front, x.obj.type ≠ a.obj.type := by
    intro x hx heq
    exact hfront x hx (by rw [heq, haK])
  refine ⟨hhas, hfind, ?_, ?_, ?_⟩
  · intro hct
    simp only [properties.get_property, hct, get_property_compile_time, hhas, hfind,
      Bool.true_and, beq_self_eq_true, if_true]
  · intro hct hart hback
    have hget := std_get_stored Γ front a back hfrontT hback hart
    simp only [properties.get_property, properties.get_property_runtime, hct, hhas, hfind,
      hget, Bool.not_false, Bool.true_and, beq_self_eq_true, Bool.false_eq_true, if_false,
      if_true, Option.map_some']
  · intro hct hart hdup
    have hget := std_get_twice Γ front a back hart hdup
    simp only [properties.get_property, properties.get_property_runtime, hct, hhas, hfind,
      hget, Bool.not_false, Bool.true_and, beq_self_eq_true, Bool.false_eq_true, if_false,
      if_true, Option.map_none']

/-- Witness of C16 amended: of hybrid<1>{2}, hybrid<2>{3}, which share
hybrid_key, get_property returns the first. -/
theorem C16_duplicate_keys_witness :
    (∀ x ∈ [] ++ temporary (hybrid_obj 1 2) :: [temporary (hybrid_obj 2 3)],
      key_of poc x.obj.type = some .hybrid_key) ∧
    ∃ p, properties.ctor poc ([] ++ temporary (hybrid_obj 1 2) :: [temporary (hybrid_obj 2 3)])
        = some p ∧
      p.get_property poc .hybrid_key = some (hybrid_obj 1 2) :=
  ⟨by decide,
    (C16_duplicate_keys_first_match poc [] (temporary (hybrid_obj 1 2))
      [temporary (hybrid_obj 2 3)] .hybrid_key (by decide) (by decide) (by decide)
      (by decide) (by decide)).imp
      (fun _ h => ⟨h.1, h.2.2.2.2.1 (by decide) (by decide) (by decide)⟩)⟩

/-- C17: the empty property list is a property list for every class, so
queue and annotated_ptr are each constructed both without properties and
from properties{}, and properties{} itself is constructed, in every
program. -/
theorem C17_empty_list_for_every_class (Γ : Program) (Class : TypeId) :
    is_property_list_for_v Γ (.properties []) Class = some true ∧
    properties.ctor Γ [] = some { EncodedProperties := [], stored_properties := [] } ∧
    queue.ctor Γ none = some (.properties []) ∧
    queue.ctor Γ (some (.properties [])) = some (.properties []) ∧
    annotated_ptr.ctor Γ none = some (.properties []) ∧
    annotated_ptr.ctor Γ (some (.properties [])) = some (.properties []) := by
  refine ⟨rfl, rfl, ?_, ?_, ?_, ?_⟩
  · simp [queue.ctor, property_or_list_for_properties, is_property_list_for_v,
      all_property_for]
  · simp [queue.ctor, property_or_list_for_properties, is_property_list_for_v,
      all_property_for]
  · simp [annotated_ptr.ctor, annotated_ptr.deduce, property_or_list_for_properties,
      is_property_list_for_v, all_property_for]
  · simp [annotated_ptr.ctor, annotated_ptr.deduce, property_or_list_for_properties,
      is_property_list_for_v, all_property_for]

/-- Witness of C17 on the source: lines 568-570 and 596. -/
theorem C17_empty_list_witness :
    is_property_list_for_v poc (.properties []) .queue = some true ∧
    is_property_list_for_v poc (.properties []) .annotated_ptr_properties = some true ∧
    queue.ctor poc none = some (.properties []) ∧
    annotated_ptr.ctor poc none = some (.properties []) :=
  ⟨(C17_empty_list_for_every_class poc .queue).1,
    (C17_empty_list_for_every_class poc .annotated_ptr_properties).1,
    (C17_empty_list_for_every_class poc .queue).2.2.1,
    (C17_empty_list_for_every_class poc .queue).2.2.2.2.1⟩

/-- C18 as stated fails for a property whose copy constructor writes to its
source: on the list built from tally{0}, whose key is a runtime key present
in the list, the first get_property returns count 0 and leaves count 1 in
the list, so the second returns count 1, and after both the stored value is
tally{2}, not tally{0}. -/
theorem C18_copy_that_writes_source_counterexample :
    is_property_key_compile_time_v poc_with_tally (.user 2) = false ∧
    has_property poc_with_tally [.user 2] (.user 2) = some true ∧
    (properties.ctor poc_with_tally [temporary (tally_obj 0)]).map
      (fun p => (p.stored_properties,
        (p.call_sequence poc_with_tally [.user 2, .user 2]).1,
        (p.call_sequence poc_with_tally [.user 2, .user 2]).2.stored_properties)) =
      some ([tally_obj 0], [some (tally_obj 0), some (tally_obj 1)], [tally_obj 2]) := by
  decide

/-- C18 amended: on a list whose stored values are left as they were by their
copy constructors, a call of get_property returns what get_property computes
and leaves the list unchanged, so after any sequence of calls the list is
unchanged, every call returned what it returns on the list as constructed,
and a repeated call returns the same value. Every class of the source has
such a copy constructor, so this holds of every list in the source; on the
list built from copy_check{} two calls in a row both return count 1. -/
theorem C18_get_property_leaves_list_unchanged (Γ : Program) (p : properties)
    (keys : List TypeId)
    (hsource : ∀ o ∈ p.stored_properties, copied_from Γ o = o) :
    (p.call_sequence Γ keys).2 = p ∧
    (p.call_sequence Γ keys).1 = keys.map (p.get_property Γ) ∧
    (∀ K, (p.call_get_property Γ K).2 = p) ∧
    (∀ K, (p.call_get_property Γ K).1 = p.get_property Γ K) ∧
    (∀ K, ((p.call_get_property Γ K).2.call_get_property Γ K).1 =
      (p.call_get_property Γ K).1) ∧
    (∀ (q : properties) (ks : List TypeId), (q.call_sequence poc ks).2 = q ∧
      (q.call_sequence poc ks).1 = ks.map (q.get_property poc)) ∧
    (properties.ctor poc [temporary (copy_check_obj 0)]).map
      (fun q => (q.call_sequence poc [.copy_check, .copy_check]).1) =
      some [some (copy_check_obj 1), some (copy_check_obj 1)] := by
  have hstep := call_get_property_unchanged Γ p hsource
  refine ⟨(call_sequence_unchanged Γ p hsource keys).1,
    (call_sequence_unchanged Γ p hsource keys).2, hstep, call_get_property_result Γ p, ?_,
    ?_, by decide⟩
  · intro K
    rw [hstep K]
  · intro q ks
    exact call_sequence_unchanged poc q (fun o _ => poc_copied_from o) ks

/-- Witness of C18 amended on the runtime list of main (lines 518-526), where
get_property for twoarg is called twice. -/
theorem C18_get_property_twice_witness :
    (∀ o ∈ [enable_profiling_obj true, twoarg_obj 1 2], copied_from poc o = o) ∧
    (properties.ctor poc [temporary (enable_profiling_obj true),
      temporary (twoarg_obj 1 2)]).map
      (fun q => (q.call_sequence poc [.enable_profiling, .twoarg, .twoarg]).1) =
      some [some (enable_profiling_obj true), some (twoarg_obj 1 2),
        some (twoarg_obj 1 2)] ∧
    (properties.ctor poc [temporary (enable_profiling_obj true),
      temporary (twoarg_obj 1 2)]).map
      (fun q => (q.call_sequence poc [.enable_profiling, .twoarg, .twoarg]).2) =
      properties.ctor poc [temporary (enable_profiling_obj true),
        temporary (twoarg_obj 1 2)] := by
  have h := C18_get_property_leaves_list_unchanged poc
    { EncodedProperties := [.enable_profiling, .twoarg]
      stored_properties := [enable_profiling_obj true, twoarg_obj 1 2] }
    [.enable_profiling, .twoarg, .twoarg] (by decide)
  exact ⟨by decide, by decide, congrArg some h.1⟩

/-- C19 as stated fails in the source itself: the class
detail::runtime_property<alignment_key> (lines 38-41) is a property with key
alignment_key, so is_property_for holds for it and annotated_ptr_properties
and annotated_ptr accepts the list of it, yet it is not a compile-time
property and the list stores it. -/
theorem C19_runtime_class_with_declared_key_counterexample :
    is_property_v poc (.runtime_property .alignment_key) = true ∧
    key_of poc (.runtime_property .alignment_key) = some .alignment_key ∧
    is_property_for_v poc (.runtime_property .alignment_key) .annotated_ptr_properties =
      some true ∧
    is_property_compile_time_v poc (.runtime_property .alignment_key) = false ∧
    annotated_ptr.ctor poc (some (.properties [.runtime_property .alignment_key])) =
      some (.properties [.runtime_property .alignment_key]) ∧
    filter_runtime_properties_t poc [.runtime_property .alignment_key] =
      [.runtime_property .alignment_key] ∧
    (properties.ctor poc [temporary (tag_obj (.runtime_property .alignment_key))]).map
      (fun p => p.stored_properties) =
      some [tag_obj (.runtime_property .alignment_key)] := by
  decide

/-- C19 amended: with the declarations of the source every key declared for
annotated_ptr_properties is a compile-time key; every property that is a
property for annotated_ptr_properties and whose category agrees with that of
its key is a compile-time property, and every list of such properties that
annotated_ptr accepts has the empty tuple as stored runtime subset, hence
size 1. The properties the source declares all agree in category with their
keys. In any program the same holds for a consumer whose declared keys are
compile-time keys, of a property without an explicit entry. -/
theorem C19_annotated_ptr_compile_time_when_categories_agree :
    (∀ K, is_property_key_for_v poc K .annotated_ptr_properties = true →
      is_property_key_compile_time_v poc K = true) ∧
    (∀ P, category_agrees poc P = true →
      is_property_for_v poc P .annotated_ptr_properties = some true →
      is_property_compile_time_v poc P = true) ∧
    (∀ P, category_agrees poc P = true → annotated_ptr.ctor poc (some (.cls P)) ≠ none →
      is_property_compile_time_v poc P = true) ∧
    (∀ L, (∀ P ∈ L, category_agrees poc P = true) →
      annotated_ptr.ctor poc (some (.properties L)) ≠ none →
      filter_runtime_properties_t poc L = [] ∧ sizeof_properties poc L = 1) ∧
    (∀ P, declared_property P = true → category_agrees poc P = true) ∧
    (∀ (Γ : Program) (P Class : TypeId), Γ.is_property_for_spec P Class ≠ some true →
      (∀ K, is_property_key_for_v Γ K Class = true →
        is_property_key_compile_time_v Γ K = true) →
      category_agrees Γ P = true → is_property_for_v Γ P Class = some true →
      is_property_compile_time_v Γ P = true) := by
  have hprop : ∀ P, category_agrees poc P = true →
      is_property_for_v poc P .annotated_ptr_properties = some true →
      is_property_compile_time_v poc P = true := by
    intro P hP hfor
    refine accepted_is_compile_time poc P _ ?_ poc_annotated_ptr_keys hP hfor
    intro hs
    have := (poc_is_property_for_spec_cases P _ true hs).2.1
    simp at this
  refine ⟨poc_annotated_ptr_keys, hprop, ?_, ?_,
    fun P hP => (declared_property_facts P hP).1, accepted_is_compile_time⟩
  · intro P hP hctor
    rw [annotated_ptr_ctor_cls] at hctor
    by_cases hfor : is_property_for_v poc P .annotated_ptr_properties = some true
    · exact hprop P hP hfor
    · simp [hfor] at hctor
  · intro L hL hctor
    have hlist : is_property_list_for_v poc (.properties L) .annotated_ptr_properties =
        some true := by
      by_cases h : is_property_list_for_v poc (.properties L) .annotated_ptr_properties =
          some true
      · exact h
      · simp [annotated_ptr.ctor, annotated_ptr.deduce, h] at hctor
    have hall := (all_property_for_eq_true_iff poc _ L).1 hlist
    have hct : ∀ P ∈ L, is_property_compile_time_v poc P = true :=
      fun P hP => hprop P (hL P hP) (hall P hP)
    have hf : filter_runtime_properties_t poc L = [] := by
      rw [filter_runtime_properties_eq_filter, List.filter_eq_nil_iff]
      intro P hP
      simp [hct P hP]
    exact ⟨hf, by simp [sizeof_properties, hf, sizeof_tuple, tuple_end, tuple_align, align_up]⟩

/-- Witness of C19 amended on the annotated_ptr of lines 613-616, built from
the list alignment_type<float>, threearg<0, true, 3>. -/
theorem C19_annotated_ptr_witness :
    (∀ P ∈ [alignment_type .float, .threearg 0 true 3], category_agrees poc P = true) ∧
    annotated_ptr.ctor poc (some (.properties [alignment_type .float, .threearg 0 true 3]))
      ≠ none ∧
    filter_runtime_properties_t poc [alignment_type .float, .threearg 0 true 3] = [] ∧
    sizeof_properties poc [alignment_type .float, .threearg 0 true 3] = 1 :=
  ⟨by decide, by decide,
    (C19_annotated_ptr_compile_time_when_categories_agree.2.2.2.1
      [alignment_type .float, .threearg 0 true 3] (by decide) (by decide)).1,
    (C19_annotated_ptr_compile_time_when_categories_agree.2.2.2.1
      [alignment_type .float, .threearg 0 true 3] (by decide) (by decide)).2⟩

/-- C20: for every property the source declares (enable_profiling, twoarg,
alignment<N>, alignment_type<U>, threearg<X, Y, Z>, hybrid<X>, copy_check,
for all parameter values) the property is compile-time exactly when its key
is a compile-time key, the key is a property key and the property is a
property. The same holds in any program of a class whose only base is
runtime_property of itself, and of the property that
constant_value_property_key or constant_type_property_key declares for a key
whose only base is that class. -/
theorem C20_categories_agree (Γ : Program) :
    (∀ P, declared_property P = true →
      is_property_v poc P = true ∧
      ∃ k, key_of poc P = some k ∧ is_property_key_v poc k = true ∧
        (is_property_compile_time_v poc P = true ↔
          is_property_key_compile_time_v poc k = true)) ∧
    (declared_property .enable_profiling = true ∧ declared_property .twoarg = true ∧
      (∀ N, declared_property (alignment N) = true) ∧
      (∀ U, declared_property (alignment_type U) = true) ∧
      (∀ X Y Z, declared_property (.threearg X Y Z) = true) ∧
      (∀ X, declared_property (.hybrid X) = true)) ∧
    (∀ T, Γ.decl (.runtime_property T) = poc_decl (.runtime_property T) →
      (Γ.decl T).inherits (Γ.decl (.runtime_property T)) = true →
      is_property_v Γ T = true ∧ key_of Γ T = some T ∧ is_property_key_v Γ T = true ∧
        (is_property_compile_time_v Γ T = true ↔
          is_property_key_compile_time_v Γ T = true)) ∧
    (∀ K U V, Γ.decl (.constant_value_property K U V) =
        poc_decl (.constant_value_property K U V) →
      Γ.decl .constant_value_property_key = poc_decl .constant_value_property_key →
      (Γ.decl K).inherits (Γ.decl .constant_value_property_key) = true →
      is_property_v Γ (.constant_value_property K U V) = true ∧
        key_of Γ (.constant_value_property K U V) = some K ∧
        is_property_key_v Γ K = true ∧
        (is_property_compile_time_v Γ (.constant_value_property K U V) = true ↔
          is_property_key_compile_time_v Γ K = true)) ∧
    (∀ K U, Γ.decl (.constant_type_property K U) = poc_decl (.constant_type_property K U) →
      Γ.decl .constant_type_property_key = poc_decl .constant_type_property_key →
      (Γ.decl K).inherits (Γ.decl .constant_type_property_key) = true →
      is_property_v Γ (.constant_type_property K U) = true ∧
        key_of Γ (.constant_type_property K U) = some K ∧
        is_property_key_v Γ K = true ∧
        (is_property_compile_time_v Γ (.constant_type_property K U) = true ↔
          is_property_key_compile_time_v Γ K = true)) := by
  refine ⟨fun P hP => (declared_property_facts P hP).2,
    ⟨rfl, rfl, fun N => by simp [declared_property, alignment], fun _ => rfl,
      fun _ _ _ => rfl, fun _ => rfl⟩, ?_, ?_, ?_⟩
  · intro T htemplate hder
    rw [htemplate] at hder
    simp only [ClassDecl.inherits, poc_decl, Bool.and_eq_true, beq_iff_eq] at hder
    obtain ⟨⟨⟨⟨⟨h1, h2⟩, h3⟩, _⟩, _⟩, h6⟩ := hder
    refine ⟨by simp [is_property_v, h1], h6, by simp [is_property_key_v, h1], ?_⟩
    simp [is_property_compile_time_v, is_property_key_compile_time_v, h2, h3]
  · intro K U V hprop hbase hder
    rw [hbase] at hder
    simp only [ClassDecl.inherits, poc_decl, Bool.and_eq_true, beq_iff_eq] at hder
    obtain ⟨⟨⟨⟨⟨_, _⟩, h3⟩, _⟩, _⟩, _⟩ := hder
    refine ⟨by simp [is_property_v, hprop, poc_decl], by simp [key_of, hprop, poc_decl],
      by simp [is_property_key_v, h3], ?_⟩
    simp [is_property_compile_time_v, is_property_key_compile_time_v, hprop, poc_decl, h3]
  · intro K U hprop hbase hder
    rw [hbase] at hder
    simp only [ClassDecl.inherits, poc_decl, Bool.and_eq_true, beq_iff_eq] at hder
    obtain ⟨⟨⟨⟨⟨_, _⟩, h3⟩, _⟩, _⟩, _⟩ := hder
    refine ⟨by simp [is_property_v, hprop, poc_decl], by simp [key_of, hprop, poc_decl],
      by simp [is_property_key_v, h3], ?_⟩
    simp [is_property_compile_time_v, is_property_key_compile_time_v, hprop, poc_decl, h3]

/-- Witness of C20 on the source: alignment<16> is built from
constant_value_property_key for alignment_key, which derives from it (lines
364-368), and enable_profiling from runtime_property of itself. -/
theorem C20_categories_agree_witness :
    (poc.decl .alignment_key).inherits (poc.decl .constant_value_property_key) = true ∧
    (is_property_compile_time_v poc (alignment 16) = true ↔
      is_property_key_compile_time_v poc .alignment_key = true) ∧
    (is_property_compile_time_v poc .enable_profiling = true ↔
      is_property_key_compile_time_v poc .enable_profiling = true) :=
  ⟨by decide,
    ((C20_categories_agree poc).2.2.2.1 .alignment_key .size_t 16 rfl rfl (by decide)).2.2.2,
    ((C20_categories_agree poc).2.2.1 .enable_profiling rfl (by decide)).2.2.2⟩

/-- C21: in a pack whose properties each agree in category with their key,
for a key K that is not a compile-time key and for which has_property is
true, find_property gives a property of the pack with key K, which is not
void (void declares no key) and is an element of filter_runtime_properties;
so every list constructed for the pack stores an element of that type, and
when the keys of the pack are pairwise distinct std::get by that type finds
it and get_property returns its copy. -/
theorem C21_runtime_lookup_finds_stored (Γ : Program) (Ps : List TypeId) (K : TypeId)
    (hagree : ∀ P ∈ Ps, category_agrees Γ P = true)
    (hKrt : is_property_key_compile_time_v Γ K = false)
    (hhas : has_property Γ Ps K = some true) :
    ∃ Property, find_property Γ K Ps = some Property ∧
      (key_of Γ .void = none → Property ≠ .void) ∧
      Property ∈ Ps ∧ key_of Γ Property = some K ∧
      Property ∈ filter_runtime_properties_t Γ Ps ∧
      (∀ args p, args.map (fun a => a.obj.type) = Ps → properties.ctor Γ args = some p →
        (∃ o ∈ p.stored_properties, o.type = Property) ∧
        ((Ps.map (key_of Γ)).Nodup →
          ∃ o, o.type = Property ∧ std_get Property p.stored_properties = some o ∧
            p.get_property Γ K = some (copy_construct Γ o))) := by
  obtain ⟨hK, hdecl⟩ := declared_of_has_property Γ Ps K true hhas
  have hex : ∃ P ∈ Ps, key_of Γ P = some K := by
    obtain ⟨b, hb, hiff⟩ := has_property_of_declared Γ Ps K hK hdecl
    rw [hhas] at hb
    exact hiff.1 (Option.some.inj hb).symm
  obtain ⟨P, hfind, hmem, hPK⟩ := find_property_of_present Γ K Ps hdecl hex
  have hPrt : is_property_compile_time_v Γ P = false := by
    have h := hagree P hmem
    simp only [category_agrees, hPK, beq_iff_eq] at h
    rw [h, hKrt]
  have hfilter : P ∈ filter_runtime_properties_t Γ Ps := by
    rw [filter_runtime_properties_eq_filter, List.mem_filter]
    exact ⟨hmem, by simp [hPrt]⟩
  refine ⟨P, hfind, ?_, hmem, hPK, hfilter, ?_⟩
  · intro hvoid hP
    rw [hP, hvoid] at hPK
    exact absurd hPK (by simp)
  · intro args p hargs hctor
    subst hargs
    obtain ⟨_, hp⟩ := ctor_some_eq Γ args p hctor
    subst hp
    constructor
    · rw [← stored_types] at hfilter
      obtain ⟨o, ho, hot⟩ := List.mem_map.1 hfilter
      exact ⟨o, ho, hot⟩
    · intro hdistinct
      obtain ⟨a, ha, haP⟩ := List.mem_map.1 hmem
      have hd : (args.map (fun x => key_of Γ x.obj.type)).Nodup := by
        rw [List.map_map] at hdistinct
        exact hdistinct
      obtain ⟨front, back, rfl⟩ := List.append_of_mem ha
      obtain ⟨h1, h2⟩ := distinct_keys_split Γ front a back hd
      have hart : is_property_compile_time_v Γ a.obj.type = false := by rw [haP, hPrt]
      have hget := std_get_stored Γ front a back (fun x hx heq => h1 x hx (by rw [heq]))
        (fun x hx heq => h2 x hx (by rw [heq])) hart
      rw [haP] at hget
      refine ⟨move_construct Γ (pass_by_value Γ a), ?_, hget, ?_⟩
      · simp [move_construct, pass_by_value_type, haP]
      · simp only [properties.get_property, properties.get_property_runtime, hKrt, hhas,
          hfind, hget, Bool.not_false, Bool.true_and, beq_self_eq_true, Bool.false_eq_true,
          if_false, if_true, Option.map_some']

/-- Witness of C21 on the mixed list of main (lines 541-552): for hybrid_key
the property found is hybrid<3>, which is stored. -/
theorem C21_runtime_lookup_witness :
    (∀ P ∈ [TypeId.enable_profiling, alignment 8, .hybrid 3], category_agrees poc P = true) ∧
    has_property poc [.enable_profiling, alignment 8, .hybrid 3] .hybrid_key = some true ∧
    ∃ Property, find_property poc .hybrid_key [.enable_profiling, alignment 8, .hybrid 3] =
        some Property ∧
      Property ≠ .void ∧
      Property ∈ filter_runtime_properties_t poc [.enable_profiling, alignment 8, .hybrid 3] :=
  ⟨by decide, by decide,
    (C21_runtime_lookup_finds_stored poc [.enable_profiling, alignment 8, .hybrid 3]
      .hybrid_key (by decide) (by decide) (by decide)).imp
      (fun _ h => ⟨h.1, h.2.1 rfl, h.2.2.2.2.1⟩)⟩

/-- C22: for a property key K, has_property is true on a pack exactly when
find_property gives a type other than void, and the type found then is a
property of the pack whose key is K; has_property is false exactly when
find_property gives void, and the one does not compile exactly when the
other does not (void itself declares no key). -/
theorem C22_has_property_iff_find_property (Γ : Program) (Ps : List TypeId) (K : TypeId)
    (hK : is_property_key_v Γ K = true) (hvoid : key_of Γ .void = none) :
    (has_property Γ Ps K = some true ↔
      ∃ P, find_property Γ K Ps = some P ∧ P ≠ .void) ∧
    (∀ P, find_property Γ K Ps = some P → P ≠ .void → P ∈ Ps ∧ key_of Γ P = some K) ∧
    (has_property Γ Ps K = some false ↔ find_property Γ K Ps = some .void) ∧
    (has_property Γ Ps K = none ↔ find_property Γ K Ps = none) := by
  have hfound : ∀ P, find_property Γ K Ps = some P → P ≠ .void →
      P ∈ Ps ∧ key_of Γ P = some K := by
    intro P hfind hP
    rcases find_property_cases Γ K Ps P hfind with h | h
    · exact absurd h.1 hP
    · exact h
  refine ⟨?_, hfound, ?_, ?_⟩
  · constructor
    · intro hhas
      obtain ⟨_, hdecl⟩ := declared_of_has_property Γ Ps K true hhas
      obtain ⟨b, hb, hiff⟩ := has_property_of_declared Γ Ps K hK hdecl
      rw [hhas] at hb
      obtain ⟨P, hfind, _, hPK⟩ := find_property_of_present Γ K Ps hdecl
        (hiff.1 (Option.some.inj hb).symm)
      refine ⟨P, hfind, ?_⟩
      intro hP
      rw [hP, hvoid] at hPK
      exact absurd hPK (by simp)
    · rintro ⟨P, hfind, hP⟩
      obtain ⟨hmem, hPK⟩ := hfound P hfind hP
      exact has_property_present Γ Ps K P hK (declared_of_find_property Γ K Ps P hfind)
        hmem hPK
  · constructor
    · intro hhas
      obtain ⟨_, hdecl⟩ := declared_of_has_property Γ Ps K false hhas
      obtain ⟨b, hb, hiff⟩ := has_property_of_declared Γ Ps K hK hdecl
      rw [hhas] at hb
      have hb2 : b = false := (Option.some.inj hb).symm
      refine find_property_absent Γ K Ps hdecl ?_
      intro P hP hPK
      have := hiff.2 ⟨P, hP, hPK⟩
      rw [hb2] at this
      exact absurd this (by simp)
    · intro hfind
      have hdecl := declared_of_find_property Γ K Ps .void hfind
      obtain ⟨b, hb, hiff⟩ := has_property_of_declared Γ Ps K hK hdecl
      cases b with
      | false => exact hb
      | true =>
        obtain ⟨P, hP, hPK⟩ := hiff.1 rfl
        obtain ⟨Q, hQ, _, hQK⟩ := find_property_of_present Γ K Ps hdecl ⟨P, hP, hPK⟩
        rw [hfind] at hQ
        rw [← Option.some.inj hQ, hvoid] at hQK
        exact absurd hQK (by simp)
  · constructor
    · intro hhas
      by_cases hdecl : ∀ P ∈ Ps, key_of Γ P ≠ none
      · obtain ⟨b, hb, _⟩ := has_property_of_declared Γ Ps K hK hdecl
        rw [hhas] at hb
        exact absurd hb (by simp)
      · push_neg at hdecl
        obtain ⟨P, hP, hk⟩ := hdecl
        exact find_property_none_of_missing Γ K Ps P hP hk
    · intro hfind
      by_cases hdecl : ∀ P ∈ Ps, key_of Γ P ≠ none
      · obtain ⟨r, hr⟩ := find_property_total Γ K Ps hdecl
        rw [hfind] at hr
        exact absurd hr (by simp)
      · push_neg at hdecl
        obtain ⟨P, hP, hk⟩ := hdecl
        simp [has_property, hK, key_types_none_of_missing Γ Ps P hP hk]

/-- Witness of C22 on the list of the negative checks of main (lines
557-563): alignment_key is found, twoarg is not. -/
theorem C22_has_property_iff_find_property_witness :
    is_property_key_v poc .alignment_key = true ∧ key_of poc .void = none ∧
    (has_property poc [.enable_profiling, alignment 8] .alignment_key = some true ↔
      ∃ P, find_property poc .alignment_key [.enable_profiling, alignment 8] = some P ∧
        P ≠ .void) ∧
    (has_property poc [.enable_profiling, alignment 8] .twoarg = some false ↔
      find_property poc .twoarg [.enable_profiling, alignment 8] = some .void) ∧
    has_property poc [.enable_profiling, alignment 8] .alignment_key = some true ∧
    find_property poc .twoarg [.enable_profiling, alignment 8] = some .void :=
  ⟨by decide, by decide,
    (C22_has_property_iff_find_property poc [.enable_profiling, alignment 8] .alignment_key
      (by decide) (by decide)).1,
    (C22_has_property_iff_find_property poc [.enable_profiling, alignment 8] .twoarg
      (by decide) (by decide)).2.2.1,
    by decide, by decide⟩

/-- C23: has_property gives the same answer on a pack and on any permutation
of it. When the arguments of the constructor have pairwise distinct keys and
are permuted, construction succeeds for the one order exactly when it does
for the other, find_property gives the same property, and get_property, the
static one and the one called on the constructed list, returns the same value
for every key. -/
theorem C23_queries_independent_of_order (Γ : Program) (args1 args2 : List Argument)
    (K : TypeId) (hperm : args1.Perm args2)
    (hdistinct : (args1.map (fun x => key_of Γ x.obj.type)).Nodup) :
    has_property Γ (args1.map (fun a => a.obj.type)) K =
      has_property Γ (args2.map (fun a => a.obj.type)) K ∧
    find_property Γ K (args1.map (fun a => a.obj.type)) =
      find_property Γ K (args2.map (fun a => a.obj.type)) ∧
    get_property_compile_time Γ (args1.map (fun a => a.obj.type)) K =
      get_property_compile_time Γ (args2.map (fun a => a.obj.type)) K ∧
    (properties.ctor Γ args1).isSome = (properties.ctor Γ args2).isSome ∧
    (∀ p1 p2, properties.ctor Γ args1 = some p1 → properties.ctor Γ args2 = some p2 →
      has_property Γ p1.EncodedProperties K = has_property Γ p2.EncodedProperties K ∧
      p1.get_property Γ K = p2.get_property Γ K) ∧
    (∀ Ps Qs : List TypeId, Ps.Perm Qs → has_property Γ Ps K = has_property Γ Qs K) := by
  have hpermT : (args1.map (fun a => a.obj.type)).Perm (args2.map (fun a => a.obj.type)) :=
    hperm.map _
  have hdT : ((args1.map (fun a => a.obj.type)).map (key_of Γ)).Nodup := by
    rw [List.map_map]
    exact hdistinct
  have hhas := has_property_perm Γ _ _ K hpermT
  have hfind := find_property_perm Γ _ _ K hpermT hdT
  have hct : get_property_compile_time Γ (args1.map (fun a => a.obj.type)) K =
      get_property_compile_time Γ (args2.map (fun a => a.obj.type)) K := by
    simp only [get_property_compile_time, hhas, hfind]
  have hget := std_get_perm Γ args1 args2
  refine ⟨hhas, hfind, hct, ?_, ?_, fun Ps Qs h => has_property_perm Γ Ps Qs K h⟩
  · by_cases hall : ∀ x ∈ args1, is_property_v Γ x.obj.type = true
    · have hall2 : ∀ x ∈ args2, is_property_v Γ x.obj.type = true :=
        fun x hx => hall x (hperm.mem_iff.2 hx)
      rw [ctor_eq Γ args1 hall, ctor_eq Γ args2 hall2]
      rfl
    · have h1 : properties.ctor Γ args1 = none := by
        cases h : properties.ctor Γ args1 with
        | none => rfl
        | some p => exact absurd (ctor_some_eq Γ args1 p h).1 hall
      have h2 : properties.ctor Γ args2 = none := by
        cases h : properties.ctor Γ args2 with
        | none => rfl
        | some p =>
          exact absurd (fun x hx => (ctor_some_eq Γ args2 p h).1 x (hperm.mem_iff.1 hx)) hall
      rw [h1, h2]
  · intro p1 p2 hp1 hp2
    obtain ⟨_, rfl⟩ := ctor_some_eq Γ args1 p1 hp1
    obtain ⟨_, rfl⟩ := ctor_some_eq Γ args2 p2 hp2
    refine ⟨hhas, ?_⟩
    simp only [properties.get_property, properties.get_property_runtime, hct, hhas, hfind,
      hget _ hperm hdistinct]

/-- Witness of C23 on the mixed list of main (lines 541-552) and the same
arguments with hybrid<3>{4} moved to the front. -/
theorem C23_queries_independent_of_order_witness :
    ([temporary (enable_profiling_obj false), named (tag_obj (alignment 8)),
      temporary (hybrid_obj 3 4)].map (fun x => key_of poc x.obj.type)).Nodup ∧
    (properties.ctor poc [temporary (enable_profiling_obj false),
      named (tag_obj (alignment 8)), temporary (hybrid_obj 3 4)]).bind
        (fun p => p.get_property poc .hybrid_key) = some (hybrid_obj 3 4) ∧
    (properties.ctor poc [temporary (hybrid_obj 3 4), temporary (enable_profiling_obj false),
      named (tag_obj (alignment 8))]).bind
        (fun p => p.get_property poc .hybrid_key) = some (hybrid_obj 3 4) ∧
    has_property poc [.enable_profiling, alignment 8, .hybrid 3] .alignment_key =
      has_property poc [.hybrid 3, .enable_profiling, alignment 8] .alignment_key := by
  have h := C23_queries_independent_of_order poc
    [temporary (enable_profiling_obj false), named (tag_obj (alignment 8)),
      temporary (hybrid_obj 3 4)]
    [temporary (hybrid_obj 3 4), temporary (enable_profiling_obj false),
      named (tag_obj (alignment 8))] .alignment_key
    (@List.perm_append_comm Argument
      [temporary (enable_profiling_obj false), named (tag_obj (alignment 8))]
      [temporary (hybrid_obj 3 4)])
    (by decide)
  exact ⟨by decide, by decide, by decide, h.1⟩

end sycl
